import Mathlib

/-!
Verification development for the Theseus kernel module loader
(kernel/nano_core/src/mod_mgmt/mod.rs).

The Rust source is shallowly embedded below: symbol names are modelled as
lists of characters, machine memory as a function from addresses to bytes,
ELF objects as structured records, and every fallible operation as a value
of Except String.  Machine integers are natural numbers with explicit
reduction modulo 2 ^ 64 (or 2 ^ 32) exactly where the source uses wrapping
arithmetic or truncating casts.  Definitions follow the source line by line;
the few collaborators whose code is not part of the repository (the
metadata symbol registry module, the util round-up helper, the
rustc-demangle crate and the UTF-8 decoder) are modelled from the
specification and are marked as such in their doc comments.
-/

/-- Symbol and section names: strings modelled as lists of characters. -/
abbrev Str := List Char

/-- Errors carried by the Rust Result type are static strings. -/
abbrev Err := String

/-- Machine memory: a byte (a natural number below 256 once written) at
every address. -/
abbrev Mem := Nat → Nat

/-- Point update of a memory. -/
def memUpd (m : Mem) (a v : Nat) : Mem :=
  fun x => if x = a then v else m x

/-- Little-endian write of the low 8 * width bits of a value, one byte at a
time, starting at the given address.  Models the raw pointer stores
performed by the relocation code. -/
def writeLE (m : Mem) (addr : Nat) : Nat → Nat → Mem
  | 0, _ => m
  | width + 1, v => writeLE (memUpd m addr (v % 256)) (addr + 1) width (v / 256)

/-- Little-endian read of width bytes starting at the given address. -/
def readLE (m : Mem) (addr : Nat) : Nat → Nat
  | 0 => 0
  | width + 1 => m addr + 256 * readLE m (addr + 1) width

/-- Copy a list of bytes into memory starting at the given address. Models
the dest.copy_from_slice call of the section-placement code. -/
def writeList (m : Mem) (addr : Nat) : List Nat → Mem
  | [] => m
  | b :: bs => writeList (memUpd m addr b) (addr + 1) bs

/-- Zero-fill count bytes starting at the given address.  Models the
write_bytes intrinsic used for .bss sections. -/
def writeZeros (m : Mem) (addr : Nat) : Nat → Mem
  | 0 => m
  | n + 1 => writeZeros (memUpd m addr 0) (addr + 1) n

/-- The all-zero memory, used as a concrete initial state. -/
def memZero : Mem := fun _ => 0

/-- Wrapping 64-bit addition, as usize wrapping_add. -/
def wadd (a b : Nat) : Nat := (a + b) % 2 ^ 64

/-- Wrapping 64-bit subtraction, as usize wrapping_sub. -/
def wsub (a b : Nat) : Nat := (a + (2 ^ 64 - b % 2 ^ 64)) % 2 ^ 64

/-- Modelled from the spec: round_up_power_of_two from the util crate (not
under src/) computes the smallest multiple of the alignment that is at
least the given size; the spec states the alignment is a power of two. -/
def roundUpPow2 (size align : Nat) : Nat :=
  (size + align - 1) / align * align


/-! ### The demangler (mod.rs, demangle_symbol)

The rustc-demangle crate is an external dependency; the spec describes it
as rendering a symbol in two forms, hash-suppressed (canonical) and
hash-included.  We model its output abstractly: a demangling has a base
rendering and an optional hash part, the hash-included form appending the
hash after a two-character separator. -/

/-- A representation of a demangled symbol (struct DemangledSymbol). -/
structure DemangledSymbol where
  full : Str
  hash : Option Str
deriving DecidableEq, Repr

/-- Modelled from the spec: the abstract result of rustc-demangle for one
symbol.  base is the hash-suppressed rendering; hashPart, when present, is
the compiler-assigned uniqueness hash. -/
structure MangledView where
  base : Str
  hashPart : Option Str

/-- Modelled from the spec: the hash-suppressed rendering (format with the
alternate flag in the source). -/
def renderNoHash (m : MangledView) : Str := m.base

/-- Modelled from the spec: the hash-included rendering (plain format in
the source); the hash follows a two-character separator. -/
def renderWithHash (m : MangledView) : Str :=
  match m.hashPart with
  | none => m.base
  | some h => m.base ++ ':' :: ':' :: h

/-- First index at which pat occurs inside hay (str::find for string
patterns in Rust). -/
def strFind (hay pat : Str) : Option Nat :=
  if pat.isPrefixOf hay then some 0
  else
    match hay with
    | [] => none
    | _ :: t => (strFind t pat).map (· + 1)

/-- str::get with a range-from index: some suffix when the index is within
bounds, none otherwise. -/
def strGetFrom (s : Str) (i : Nat) : Option Str :=
  if i ≤ s.length then some (s.drop i) else none

/-- Embedding of demangle_symbol (mod.rs lines 107-124): derive the hash
suffix as the tail of the hash-included rendering found after the
canonical rendering plus the two-character separator. -/
def demangle_symbol (m : MangledView) : DemangledSymbol :=
  let without_hash : Str := renderNoHash m
  let with_hash : Str := renderWithHash m
  let hash_only : Option Str :=
    (strFind with_hash without_hash).bind
      (fun index => strGetFrom with_hash (index + 2 + without_hash.length))
  { full := without_hash, hash := hash_only }

/-! ### The ELF object model

Structured form of the parts of an xmas-elf relocatable file that
parse_elf_kernel_crate consumes: the section-header table with per-section
name, type, flags, size, alignment, payload and info field, and the symbol
table entries. -/

/-- Section header types the loader distinguishes (xmas-elf ShType). -/
inductive ShTy where
  | ProgBits
  | NoBits
  | Rela
  | SymTab
  | Null
  | OtherTy
deriving DecidableEq, Repr

/-- Symbol types (xmas-elf symbol_table::Type). -/
inductive SymTy where
  | Func
  | Object
  | OtherSym
deriving DecidableEq, Repr

/-- Symbol binding (xmas-elf symbol_table::Binding). -/
inductive SymBind where
  | Global
  | OtherBind
deriving DecidableEq, Repr

/-- Symbol visibility (xmas-elf symbol_table::Visibility). -/
inductive SymVis where
  | Default
  | OtherVis
deriving DecidableEq, Repr

/-- One symbol-table entry.  nameOpt models get_name on the entry, which
can fail when the string table is unusable. -/
structure SymEntry where
  nameOpt : Option Str
  typ : SymTy
  bind : SymBind
  vis : SymVis
  shndx : Nat
deriving DecidableEq, Repr

/-- One relocation-with-addend entry of a Rela64 array.  The addend is the
raw 64-bit value (the source casts it to usize before wrapping
arithmetic). -/
structure RelaEntry where
  offset : Nat
  addend : Nat
  symIndex : Nat
  relocType : Nat
deriving DecidableEq, Repr

/-- Section payload as returned by get_data (xmas-elf SectionData). -/
inductive SecData where
  | Empty
  | Undefined (bytes : List Nat)
  | Rela64 (entries : List RelaEntry)
  | SymbolTable64 (entries : List SymEntry)
  | OtherData
deriving DecidableEq, Repr

/-- One section header of the object. -/
structure ElfSection where
  name : Str
  shType : ShTy
  flags : Nat
  size : Nat
  align : Nat
  data : SecData
  info : Nat
deriving DecidableEq, Repr

/-- Object header types (xmas-elf header::Type). -/
inductive ElfTy where
  | Relocatable
  | Executable
  | OtherElf
deriving DecidableEq, Repr

/-- A parsed ELF object: header type plus the section-header table. -/
structure ElfFile where
  etype : ElfTy
  sections : List ElfSection
deriving DecidableEq, Repr

/-- SHF_WRITE flag bit. -/
def SHF_WRITE : Nat := 1

/-- SHF_ALLOC flag bit. -/
def SHF_ALLOC : Nat := 2

/-- SHF_EXECINSTR flag bit. -/
def SHF_EXECINSTR : Nat := 4

/-- Relocation type constants from the goblin crate. -/
def R_X86_64_64 : Nat := 1

/-- R_X86_64_PC32 relocation type. -/
def R_X86_64_PC32 : Nat := 2

/-- R_X86_64_32 relocation type. -/
def R_X86_64_32 : Nat := 10

/-- R_X86_64_PC64 relocation type. -/
def R_X86_64_PC64 : Nat := 24

/-! ### Loaded metadata and the symbol registry

The metadata module is declared in mod.rs but its file is not under src/;
the LoadedSection, LoadedCrate and symbol-registry shapes below are
modelled from the spec (sections 3 and 6). -/

/-- Permission class of a loaded section (the three LoadedSection
variants Text, Rodata and Data of the metadata module; .bss sections reuse
the Data variant). -/
inductive SecClass where
  | Text
  | Rodata
  | Data
deriving DecidableEq, Repr

/-- Modelled from the spec: one record per section copied into a live
region (the metadata module's TextSection / RodataSection / DataSection,
with the shared fields abs_symbol, hash, virt_addr, size, global). -/
structure LoadedSection where
  cls : SecClass
  abs_symbol : Str
  hash : Option Str
  virt_addr : Nat
  size : Nat
  global : Bool
deriving DecidableEq, Repr

/-- A mapped virtual-address region handed out by the allocator. -/
structure Region where
  base : Nat
  size : Nat
deriving DecidableEq, Repr

/-- Modelled from the spec: LoadedCrate owns the sections and the mapped
regions of one successfully loaded module. -/
structure LoadedCrate where
  crate_name : Str
  sections : List LoadedSection
  mapped_pages : List Region
deriving DecidableEq, Repr

/-- Modelled from the spec: the Symbol Registry of the metadata module (not
under src/) maps demangled canonical names to weak section handles; a none
value stands for an expired weak handle. -/
abbrev Registry := List (Str × Option LoadedSection)

/-- Assoc-list lookup by key. -/
def lookupA {α : Type} [DecidableEq α] {β : Type} : List (α × β) → α → Option β
  | [], _ => none
  | (k, v) :: rest, key => if key = k then some v else lookupA rest key

/-- Modelled from the spec: metadata::get_symbol followed by .upgrade() on
the weak handle; yields the section when the name is registered and the
handle is live. -/
def get_symbol_upgrade (reg : Registry) (n : Str) : Option LoadedSection :=
  match lookupA reg n with
  | none => none
  | some w => w

/-! ### Loader phases (parse_elf_kernel_crate) -/

/-- Embedding of find_first_section_by_type (mod.rs lines 873-883): the
first section of the table whose type matches. -/
def find_first_section_by_type (elf : ElfFile) (t : ShTy) : Option ElfSection :=
  elf.sections.find? (fun s => s.shType = t)

/-- Symbol-table discovery (mod.rs lines 163-171): the first SymTab
section must carry SymbolTable64 data, otherwise the load fails. -/
def symtabOf (elf : ElfFile) : Except Err (List SymEntry) :=
  match find_first_section_by_type elf .SymTab with
  | some s =>
    match s.data with
    | .SymbolTable64 entries => .ok entries
    | _ => .error "cannot load: no symbol table found. Was file stripped?"
  | none => .error "cannot load: no symbol table found. Was file stripped?"

/-- Phase A (mod.rs lines 176-199): section indices of symbols that are
functions or objects with default visibility and global binding. -/
def globalSections (symtab : List SymEntry) : List Nat :=
  symtab.filterMap (fun e =>
    if (e.typ = .Func ∨ e.typ = .Object) ∧ e.vis = .Default ∧ e.bind = .Global
    then some e.shndx else none)

/-- Phase B (mod.rs lines 203-235): padded byte totals for the text,
rodata and data/bss classes.  Zero-size or non-ALLOC PROGBITS/NOBITS
sections contribute nothing; exec sections count as text, writable ones as
data, the rest as rodata. -/
def planBytes : List ElfSection → Nat × Nat × Nat
  | [] => (0, 0, 0)
  | sec :: rest =>
    let (t, r, d) := planBytes rest
    if (sec.shType = .ProgBits ∨ sec.shType = .NoBits) ∧
        sec.size ≠ 0 ∧ sec.flags &&& SHF_ALLOC ≠ 0 then
      let addend := roundUpPow2 sec.size sec.align
      if sec.flags &&& SHF_EXECINSTR = SHF_EXECINSTR then (t + addend, r, d)
      else if sec.flags &&& SHF_WRITE = SHF_WRITE then (t, r, d + addend)
      else (t, r + addend, d)
    else (t, r, d)

/-- Phase C (mod.rs lines 243-265): allocate a writable region for a class
when its byte total is positive; a class with no content yields the
sentinel error kept inside the triple.  The base address stands for the
arbitrary pages picked by the allocator. -/
def allocRegion (bytes : Nat) (base : Nat) (sentinel : Err) : Except Err Region :=
  if bytes > 0 then .ok { base := base, size := bytes } else .error sentinel

/-- The effective size, alignment and data of a section together with the
original name and flags kept by the loader. -/
structure SecView where
  name : Str
  flags : Nat
  size : Nat
  align : Nat
  data : SecData
deriving DecidableEq, Repr

/-- Zero-size substitution (mod.rs lines 287-316): a zero-size
PROGBITS/NOBITS section keeps its own name and flags but takes size,
alignment and data from the next section header; a missing next header is
an error. -/
def sectionView (table : List ElfSection) (shndx : Nat) (sec : ElfSection) :
    Except Err SecView :=
  if sec.size = 0 then
    match table.get? (shndx + 1) with
    | some nxt =>
      .ok { name := sec.name, flags := sec.flags,
            size := nxt.size, align := nxt.align, data := nxt.data }
    | none => .error "could not get next section for a zero-sized section"
  else
    .ok { name := sec.name, flags := sec.flags,
          size := sec.size, align := sec.align, data := sec.data }

/-- Section-data extraction (mod.rs lines 321-338): .bss-named sections
must have Empty data (a one-byte placeholder slice results, never used);
every other section must have Undefined byte data. -/
def getSecData (secName : Str) (d : SecData) : Except Err (List Nat) :=
  if (".bss.".toList).isPrefixOf secName then
    match d with
    | .Empty => .ok [0]
    | _ => .error ".bss section had data that was not Empty"
  else
    match d with
    | .Undefined bs => .ok bs
    | _ => .error "could not get sec_data in .text, .data, or .rodata section"

/-- Mutable state of the Phase D placement loop: the shndx-keyed map of
loaded sections, one running offset per class, and the machine memory the
section bytes are copied into. -/
structure PState where
  loaded : List (Nat × LoadedSection)
  textOff : Nat
  rodataOff : Nat
  dataOff : Nat
  mem : Mem

/-- Enumerate a list starting at a given index, as the enumerate adapter
of the section iterator. -/
def enumFrom {α : Type} (i : Nat) : List α → List (Nat × α)
  | [] => []
  | a :: as => (i, a) :: enumFrom (i + 1) as

/-- Name prefix of per-function text sections. -/
def TEXT_PREFIX : Str := ".text.".toList

/-- Name prefix of per-symbol rodata sections. -/
def RODATA_PREFIX : Str := ".rodata.".toList

/-- Name prefix of per-symbol data sections. -/
def DATA_PREFIX : Str := ".data.".toList

/-- Name prefix of per-symbol bss sections. -/
def BSS_PREFIX : Str := ".bss.".toList

/-- One iteration of the Phase D placement loop (mod.rs lines 281-520) for
a PROGBITS/NOBITS section: resolve the effective view (zero-size
substitution), extract the data payload, classify by name prefix, copy or
zero-fill the bytes at the next free offset of the class region, and
record the LoadedSection keyed by shndx.  Differences forced by the
shallow embedding: section names are always available in the model (the
source returns an error when the string table is broken), the assert
macros on flag mismatches and the copy_from_slice length panic are
modelled as errors, and the demangler is a function parameter.  The shndx
keys inserted are strictly increasing, so appending models the BTreeMap
insert. -/
def placeStep (dem : Str → DemangledSymbol) (table : List ElfSection)
    (globals : List Nat) (tp rp dp : Except Err Region) (st : PState)
    (p : Nat × ElfSection) : Except Err PState :=
  let shndx := p.1
  let sec := p.2
  if sec.shType = .ProgBits ∨ sec.shType = .NoBits then
    let secFlags := sec.flags
    let secName := sec.name
    match sectionView table shndx sec with
    | .error e => .error e
    | .ok v =>
      match getSecData secName v.data with
      | .error e => .error e
      | .ok dataBytes =>
        if TEXT_PREFIX.isPrefixOf secName then
          let demangled := dem (secName.drop TEXT_PREFIX.length)
          if secFlags &&& (SHF_ALLOC ||| SHF_WRITE ||| SHF_EXECINSTR) =
              SHF_ALLOC ||| SHF_EXECINSTR then
            match tp with
            | .ok rg =>
              let destAddr := rg.base + st.textOff
              if dataBytes.length = v.size then
                .ok { st with
                  loaded := st.loaded ++ [(shndx,
                    { cls := .Text, abs_symbol := demangled.full,
                      hash := demangled.hash, virt_addr := destAddr,
                      size := v.size, global := globals.contains shndx })],
                  textOff := st.textOff + roundUpPow2 v.size v.align,
                  mem := writeList st.mem destAddr dataBytes }
              else .error "panic: copy_from_slice length mismatch"
            | .error _ => .error "no text_pages were allocated"
          else .error "assertion failed: .text section had wrong flags"
        else if RODATA_PREFIX.isPrefixOf secName then
          let demangled := dem (secName.drop RODATA_PREFIX.length)
          if secFlags &&& (SHF_ALLOC ||| SHF_WRITE ||| SHF_EXECINSTR) =
              SHF_ALLOC then
            match rp with
            | .ok rg =>
              let destAddr := rg.base + st.rodataOff
              if dataBytes.length = v.size then
                .ok { st with
                  loaded := st.loaded ++ [(shndx,
                    { cls := .Rodata, abs_symbol := demangled.full,
                      hash := demangled.hash, virt_addr := destAddr,
                      size := v.size, global := globals.contains shndx })],
                  rodataOff := st.rodataOff + roundUpPow2 v.size v.align,
                  mem := writeList st.mem destAddr dataBytes }
              else .error "panic: copy_from_slice length mismatch"
            | .error _ => .error "no rodata_pages were allocated"
          else .error "assertion failed: .rodata section had wrong flags"
        else if DATA_PREFIX.isPrefixOf secName then
          let demangled := dem (secName.drop DATA_PREFIX.length)
          if secFlags &&& (SHF_ALLOC ||| SHF_WRITE ||| SHF_EXECINSTR) =
              SHF_ALLOC ||| SHF_WRITE then
            match dp with
            | .ok rg =>
              let destAddr := rg.base + st.dataOff
              if dataBytes.length = v.size then
                .ok { st with
                  loaded := st.loaded ++ [(shndx,
                    { cls := .Data, abs_symbol := demangled.full,
                      hash := demangled.hash, virt_addr := destAddr,
                      size := v.size, global := globals.contains shndx })],
                  dataOff := st.dataOff + roundUpPow2 v.size v.align,
                  mem := writeList st.mem destAddr dataBytes }
              else .error "panic: copy_from_slice length mismatch"
            | .error _ => .error "no data_pages were allocated for .data section"
          else .error "assertion failed: .data section had wrong flags"
        else if BSS_PREFIX.isPrefixOf secName then
          let demangled := dem (secName.drop BSS_PREFIX.length)
          if secFlags &&& (SHF_ALLOC ||| SHF_WRITE ||| SHF_EXECINSTR) =
              SHF_ALLOC ||| SHF_WRITE then
            match dp with
            | .ok rg =>
              let destAddr := rg.base + st.dataOff
              .ok { st with
                loaded := st.loaded ++ [(shndx,
                  { cls := .Data, abs_symbol := demangled.full,
                    hash := demangled.hash, virt_addr := destAddr,
                    size := v.size, global := globals.contains shndx })],
                dataOff := st.dataOff + roundUpPow2 v.size v.align,
                mem := writeZeros st.mem destAddr v.size }
            | .error _ => .error "no data_pages were allocated for .bss section"
          else .error "assertion failed: .bss section had wrong flags"
        else if (".note".toList).isPrefixOf secName ∨
            (".gcc".toList).isPrefixOf secName ∨
            (".debug".toList).isPrefixOf secName ∨
            secName = ".text".toList then
          .ok st
        else
          .ok st
  else .ok st

/-- The Phase D loop over the enumerated section table. -/
def placeLoop (dem : Str → DemangledSymbol) (table : List ElfSection)
    (globals : List Nat) (tp rp dp : Except Err Region) :
    List (Nat × ElfSection) → PState → Except Err PState
  | [], st => .ok st
  | p :: ps, st =>
    match placeStep dem table globals tp rp dp st p with
    | .error e => .error e
    | .ok st' => placeLoop dem table globals tp rp dp ps st'

/-- SHN_UNDEF special section index. -/
def SHN_UNDEF : Nat := 0

/-- SHN_ABS special section index. -/
def SHN_ABS : Nat := 0xfff1

/-- The reserved section indices matched as unsupported by the relocation
code (mod.rs line 581): SHN_LORESERVE and SHN_LOPROC are 0xff00,
SHN_HIPROC is 0xff1f, SHN_LOOS is 0xff20, SHN_HIOS is 0xff3f, SHN_COMMON
is 0xfff2, SHN_XINDEX and SHN_HIRESERVE are 0xffff. -/
def reservedShndx (n : Nat) : Bool :=
  n = 0xff00 || n = 0xff1f || n = 0xff20 || n = 0xff3f || n = 0xfff2 || n = 0xffff

/-- Source-section resolution for one relocation entry (mod.rs lines
578-623): reserved indices and SHN_ABS are unsupported; otherwise the
entry's shndx is looked up among this module's loaded sections (except
SHN_UNDEF), and on failure the symbol's demangled name is looked up in the
symbol registry, a missing or expired weak handle being fatal. -/
def resolveSourceSec (dem : Str → DemangledSymbol)
    (loaded : List (Nat × LoadedSection)) (reg : Registry)
    (entry : SymEntry) : Except Err LoadedSection :=
  if reservedShndx entry.shndx then
    .error "Unsupported source section shndx"
  else if entry.shndx = SHN_ABS then
    .error "Unsupported source section shndx SHN_ABS"
  else
    let loadedSec := if entry.shndx = SHN_UNDEF then none
                     else lookupA loaded entry.shndx
    match loadedSec with
    | some s => .ok s
    | none =>
      match entry.nameOpt with
      | some srcName =>
        match get_symbol_upgrade reg ((dem srcName).full) with
        | some s => .ok s
        | none => .error "Could not resolve source section for symbol relocation"
      | none => .error "Could not get source section name for non-local relocation entry"

/-- One relocation entry applied to the target section (mod.rs lines
560-668): destination pointer is the target section address plus the entry
offset; the entry type selects the written width and formula, with
wrapping usize arithmetic and truncating casts; any other type is a fatal
error.  Indexing the symbol table out of bounds would panic in the source.
The registry is threaded through untouched (the source only reads it). -/
def processRelaEntry (dem : Str → DemangledSymbol) (symtab : List SymEntry)
    (loaded : List (Nat × LoadedSection)) (tgtVA : Nat) (m : Mem)
    (reg : Registry) (r : RelaEntry) : (Except Err Mem) × Registry :=
  match symtab.get? r.symIndex with
  | none => (.error "panic: symbol table index out of bounds", reg)
  | some entry =>
    let destPtr := tgtVA + r.offset
    match resolveSourceSec dem loaded reg entry with
    | .error e => (.error e, reg)
    | .ok src =>
      if r.relocType = R_X86_64_32 then
        (.ok (writeLE m destPtr 4 (wadd src.virt_addr r.addend % 2 ^ 32)), reg)
      else if r.relocType = R_X86_64_64 then
        (.ok (writeLE m destPtr 8 (wadd src.virt_addr r.addend)), reg)
      else if r.relocType = R_X86_64_PC32 then
        (.ok (writeLE m destPtr 4 (wsub (wadd src.virt_addr r.addend) destPtr % 2 ^ 32)), reg)
      else if r.relocType = R_X86_64_PC64 then
        (.ok (writeLE m destPtr 8 (wsub (wadd src.virt_addr r.addend) destPtr)), reg)
      else
        (.error "found unsupported relocation type", reg)

/-- The loop over the entries of one Rela64 array. -/
def relaEntriesLoop (dem : Str → DemangledSymbol) (symtab : List SymEntry)
    (loaded : List (Nat × LoadedSection)) (tgtVA : Nat) :
    List RelaEntry → Mem → Registry → (Except Err Mem) × Registry
  | [], m, reg => (.ok m, reg)
  | r :: rest, m, reg =>
    match processRelaEntry dem symtab loaded tgtVA m reg r with
    | (.error e, reg') => (.error e, reg')
    | (.ok m', reg') => relaEntriesLoop dem symtab loaded tgtVA rest m' reg'

/-- Relocation sections whose names mark them as ignorable (mod.rs lines
542-550). -/
def skipRelaName (n : Str) : Bool :=
  (".rela.eh_frame".toList).isPrefixOf n ||
  (".rela.note".toList).isPrefixOf n ||
  (".rela.gcc".toList).isPrefixOf n ||
  (".rela.debug".toList).isPrefixOf n

/-- Phase E treatment of one section (mod.rs lines 529-680): only
non-empty RELA sections are considered; ignorable names are skipped; a
target section (the info field) that was not loaded in Phase D is skipped
with a warning; otherwise the data must parse as Rela64 and every entry is
applied in order. -/
def relaSectionStep (dem : Str → DemangledSymbol) (symtab : List SymEntry)
    (loaded : List (Nat × LoadedSection)) (sec : ElfSection) (m : Mem)
    (reg : Registry) : (Except Err Mem) × Registry :=
  if sec.shType = .Rela then
    if sec.size = 0 then (.ok m, reg)
    else if skipRelaName sec.name then (.ok m, reg)
    else
      match lookupA loaded sec.info with
      | some target =>
        match sec.data with
        | .Rela64 arr => relaEntriesLoop dem symtab loaded target.virt_addr arr m reg
        | _ => (.error "Found Rela section that could not be parsed as Rela64", reg)
      | none => (.ok m, reg)
  else (.ok m, reg)

/-- The Phase E loop over the section table. -/
def relocLoop (dem : Str → DemangledSymbol) (symtab : List SymEntry)
    (loaded : List (Nat × LoadedSection)) :
    List ElfSection → Mem → Registry → (Except Err Mem) × Registry
  | [], m, reg => (.ok m, reg)
  | s :: rest, m, reg =>
    match relaSectionStep dem symtab loaded s m reg with
    | (.error e, reg') => (.error e, reg')
    | (.ok m', reg') => relocLoop dem symtab loaded rest m' reg'

/-- The regions actually allocated, in text, rodata, data order (mod.rs
lines 685-697). -/
def exceptToList (e : Except Err Region) : List Region :=
  match e with
  | .ok r => [r]
  | .error _ => []

/-- Embedding of parse_elf_kernel_crate (mod.rs lines 128-710).  The
module-name prefix gate runs first; the object must be a relocatable ELF
with a symbol table; Phase A collects global section indices, Phase B the
per-class byte totals, Phase C allocates one writable region per non-empty
class at an allocator-chosen base (passed as a parameter), Phase D places
the sections, Phase E applies relocations, the permission remap of Phase F
is an external page-table operation abstracted as succeeding, and Phase G
assembles the LoadedCrate with the prefix-stripped crate name.  The symbol
registry is threaded through and returned alongside the result. -/
def parseElfKernelCrate (dem : Str → DemangledSymbol) (elf : ElfFile)
    (module_name : Str) (textBase rodataBase dataBase : Nat) (mem0 : Mem)
    (reg : Registry) : (Except Err LoadedCrate) × Registry :=
  if ("__k_".toList).isPrefixOf module_name = false then
    (.error "module_name did not start with __k_", reg)
  else if elf.etype ≠ .Relocatable then
    (.error "not a relocatable elf file", reg)
  else
    match symtabOf elf with
    | .error e => (.error e, reg)
    | .ok symtab =>
      let globals := globalSections symtab
      let plan := planBytes elf.sections
      let tp := allocRegion plan.1 textBase "no text sections present"
      let rp := allocRegion plan.2.1 rodataBase "no rodata sections present"
      let dp := allocRegion plan.2.2 dataBase "no data sections present"
      match placeLoop dem elf.sections globals tp rp dp
          (enumFrom 0 elf.sections)
          { loaded := [], textOff := 0, rodataOff := 0, dataOff := 0, mem := mem0 } with
      | .error e => (.error e, reg)
      | .ok pst =>
        match relocLoop dem symtab pst.loaded elf.sections pst.mem reg with
        | (.error e, reg') => (.error e, reg')
        | (.ok _, reg') =>
          (.ok { crate_name := module_name.drop 4,
                 sections := pst.loaded.map Prod.snd,
                 mapped_pages := exceptToList tp ++ exceptToList rp ++ exceptToList dp },
           reg')

/-! ### parse_nano_core_symbols (mod.rs lines 716-857)

Only the input-preparation stage matters for the claims: the routine
stores a null byte over the last byte of the region, reinterprets the
bytes as a C string (which requires the single null to be terminal) and
decodes them as UTF-8 before scanning lines.  The UTF-8 decoder belongs to
the core library, so it is a parameter here; line scanning keeps only the
split on newline characters. -/

/-- The in-place overwrite of the final byte of the input region with a
null byte (mod.rs line 728). -/
def nanoCoreOverwrite (bytes : List Nat) : List Nat :=
  bytes.set (bytes.length - 1) 0

/-- CStr::from_bytes_with_nul: succeeds exactly when the last byte is the
only null, yielding the bytes before it. -/
def cstrFromBytesWithNul (bytes : List Nat) : Except Err (List Nat) :=
  if bytes.getLast? = some 0 ∧ ¬ (0 ∈ bytes.dropLast) then .ok bytes.dropLast
  else .error "FromBytesWithNulError occurred when casting nano_core symbol memory to CStr"

/-- The text parse_nano_core_symbols goes on to scan: overwrite the final
byte, take the C string, decode as UTF-8 (decoder passed as a
parameter). -/
def nanoCoreText (decode : List Nat → Option Str) (bytes : List Nat) :
    Except Err Str :=
  match cstrFromBytesWithNul (nanoCoreOverwrite bytes) with
  | .error e => .error e
  | .ok cb =>
    match decode cb with
    | some s => .ok s
    | none => .error "Utf8Error occurred when parsing nano_core symbols CStr"

/-- The symbol lines scanned by parse_nano_core_symbols: the parsed text
split at newline characters. -/
def nanoCoreLines (decode : List Nat → Option Str) (bytes : List Nat) :
    Except Err (List Str) :=
  match nanoCoreText decode bytes with
  | .error e => .error e
  | .ok s => .ok (s.splitOn '\n')

/-! ### The spec-side relocation table (spec section 4.4) -/

/-- The relocation types the loader supports. -/
def supportedReloc (t : Nat) : Bool :=
  t = R_X86_64_32 || t = R_X86_64_64 || t = R_X86_64_PC32 || t = R_X86_64_PC64

/-- Written from the words of the spec (section 4.4): for a supported
relocation type, the written width in bytes and the value, where the value
is source plus addend (wrapping), minus the destination pointer for the
PC-relative forms, truncated to 32 bits for the 32-bit forms. -/
def specRelocTable (t srcVA addend destPtr : Nat) : Option (Nat × Nat) :=
  if t = R_X86_64_32 then some (4, wadd srcVA addend % 2 ^ 32)
  else if t = R_X86_64_64 then some (8, wadd srcVA addend)
  else if t = R_X86_64_PC32 then some (4, wsub (wadd srcVA addend) destPtr % 2 ^ 32)
  else if t = R_X86_64_PC64 then some (8, wsub (wadd srcVA addend) destPtr)
  else none

/-! ### Concrete objects used as witnesses and counterexamples -/

/-- The identity demangling: an unmangled symbol renders as itself with no
hash. -/
def demId : Str → DemangledSymbol := fun n => { full := n, hash := none }

/-- A minimal valid module: one global text section and a symbol table. -/
def s1elf : ElfFile :=
  { etype := .Relocatable,
    sections :=
      [ { name := ".text.foo".toList, shType := .ProgBits, flags := 6,
          size := 16, align := 16, data := .Undefined (List.replicate 16 0),
          info := 0 },
        { name := ".symtab".toList, shType := .SymTab, flags := 0,
          size := 24, align := 8,
          data := .SymbolTable64
            [ { nameOpt := some ("foo".toList), typ := .Func, bind := .Global,
                vis := .Default, shndx := 0 } ],
          info := 0 } ] }

/-- A module with rodata content only: its text and data classes plan zero
bytes and get no region. -/
def c8goodElf : ElfFile :=
  { etype := .Relocatable,
    sections :=
      [ { name := ".rodata.r".toList, shType := .ProgBits, flags := 2,
          size := 8, align := 8, data := .Undefined (List.replicate 8 1),
          info := 0 },
        { name := ".symtab".toList, shType := .SymTab, flags := 0,
          size := 0, align := 8, data := .SymbolTable64 [], info := 0 } ] }

/-- A module whose only text-named section has size zero (borrowing the
following rodata section's size and data), so the text class plans zero
bytes yet a text section reaches placement. -/
def c8badElf : ElfFile :=
  { etype := .Relocatable,
    sections :=
      [ { name := ".text.z".toList, shType := .ProgBits, flags := 6,
          size := 0, align := 16, data := .Undefined [], info := 0 },
        { name := ".rodata.r".toList, shType := .ProgBits, flags := 2,
          size := 8, align := 8, data := .Undefined (List.replicate 8 1),
          info := 0 },
        { name := ".symtab".toList, shType := .SymTab, flags := 0,
          size := 0, align := 8, data := .SymbolTable64 [], info := 0 } ] }

/-- Disjointness of the address ranges of two loaded sections. -/
def rangesDisjoint (a b : LoadedSection) : Prop :=
  a.virt_addr + a.size ≤ b.virt_addr ∨ b.virt_addr + b.size ≤ a.virt_addr

/-- A symbol table with one entry living in section 3, used as a
relocation witness. -/
def symtabW : List SymEntry :=
  [ { nameOpt := some ("abc".toList), typ := .Func, bind := .Global,
      vis := .Default, shndx := 3 } ]

/-- A loaded-section map with one text section at index 3, used as a
relocation witness. -/
def loadedW : List (Nat × LoadedSection) :=
  [ (3, { cls := .Text, abs_symbol := "t".toList, hash := none,
          virt_addr := 8192, size := 16, global := false }) ]

/-- A concrete R_X86_64_64 relocation entry, used as a witness. -/
def relaW : RelaEntry :=
  { offset := 8, addend := 0, symIndex := 0, relocType := 1 }

/-- Every loaded section of a class lies inside that class region below
the running offset. -/
def regionBounds (tp rp dp : Except Err Region) (st : PState) : Prop :=
  ∀ p ∈ st.loaded,
    (p.2.cls = SecClass.Text → ∃ rg, tp = .ok rg ∧
      p.2.virt_addr + p.2.size ≤ rg.base + st.textOff) ∧
    (p.2.cls = SecClass.Rodata → ∃ rg, rp = .ok rg ∧
      p.2.virt_addr + p.2.size ≤ rg.base + st.rodataOff) ∧
    (p.2.cls = SecClass.Data → ∃ rg, dp = .ok rg ∧
      p.2.virt_addr + p.2.size ≤ rg.base + st.dataOff)

/-- The placement-loop invariant: class bounds plus pairwise disjointness
of same-class sections. -/
def placementInv (tp rp dp : Except Err Region) (st : PState) : Prop :=
  regionBounds tp rp dp st ∧
  List.Pairwise (fun p q : Nat × LoadedSection =>
    p.2.cls = q.2.cls → rangesDisjoint p.2 q.2) st.loaded

/-- A module whose last section header is a zero-size PROGBITS section, so
the next-header substitution has no next header to read. -/
def c9elf : ElfFile :=
  { etype := .Relocatable,
    sections :=
      [ { name := ".symtab".toList, shType := .SymTab, flags := 0, size := 0,
          align := 8, data := .SymbolTable64 [], info := 0 },
        { name := ".text.zz".toList, shType := .ProgBits, flags := 6,
          size := 0, align := 16, data := .Undefined [], info := 0 } ] }

/-! ### General lemmas about the byte-level memory -/

theorem le_roundUpPow2 (size align : Nat) (h : 0 < align) :
    size ≤ roundUpPow2 size align := by
  rcases align with _ | a
  · exact absurd h (by simp)
  · have hdm := Nat.div_add_mod (size + a) (a + 1)
    have hmlt : (size + a) % (a + 1) ≤ a := Nat.lt_succ_iff.mp (Nat.mod_lt _ (Nat.succ_pos a))
    unfold roundUpPow2
    have h1 : (size + (a + 1) - 1) = size + a := by omega
    rw [h1, Nat.mul_comm]
    omega


theorem writeLE_lt (w : Nat) : ∀ (m : Mem) (a v x : Nat), x < a →
    writeLE m a w v x = m x := by
  induction w with
  | zero => intro m a v x _; rfl
  | succ w ih =>
    intro m a v x hx
    show writeLE (memUpd m a (v % 256)) (a + 1) w (v / 256) x = m x
    rw [ih _ _ _ _ (Nat.lt_succ_of_lt hx)]
    unfold memUpd
    simp [Nat.ne_of_lt hx]

theorem readLE_writeLE (w : Nat) : ∀ (m : Mem) (a v : Nat),
    readLE (writeLE m a w v) a w = v % 2 ^ (8 * w) := by
  induction w with
  | zero => intro m a v; simp [readLE, writeLE, Nat.mod_one]
  | succ w ih =>
    intro m a v
    show writeLE (memUpd m a (v % 256)) (a + 1) w (v / 256) a +
        256 * readLE (writeLE (memUpd m a (v % 256)) (a + 1) w (v / 256)) (a + 1) w =
        v % 2 ^ (8 * (w + 1))
    rw [writeLE_lt w _ _ _ _ (Nat.lt_succ_self a), ih]
    show memUpd m a (v % 256) a + 256 * (v / 256 % 2 ^ (8 * w)) = v % 2 ^ (8 * (w + 1))
    unfold memUpd
    rw [if_pos rfl]
    have hpow : (2 : Nat) ^ (8 * (w + 1)) = 256 * 2 ^ (8 * w) := by
      rw [show 8 * (w + 1) = 8 * w + 8 by omega, pow_add]
      norm_num [Nat.mul_comm]
    rw [hpow, Nat.mod_mul]

/-! ### Claim C6: the demangler round trip -/

theorem strFind_of_isPrefixOf (hay pat : Str) (h : pat.isPrefixOf hay = true) :
    strFind hay pat = some 0 := by
  unfold strFind
  rw [if_pos h]

theorem strFind_prefix_self (s tail : Str) : strFind (s ++ tail) s = some 0 :=
  strFind_of_isPrefixOf _ _ (List.isPrefixOf_iff_prefix.mpr (List.prefix_append s tail))

/-- Claim C6: for any symbol, demangle_symbol yields the hash-suppressed
canonical rendering; whenever the hash suffix is present, canonical ++
separator ++ suffix reconstructs the hash-included rendering; and for a
symbol that was never mangled (no hash part), the canonical form is the
input rendering and the suffix is absent. -/
theorem c6_demangler_round_trip (m : MangledView) :
    (demangle_symbol m).full = renderNoHash m ∧
    (∀ suf, (demangle_symbol m).hash = some suf →
      (demangle_symbol m).full ++ ':' :: ':' :: suf = renderWithHash m) ∧
    (m.hashPart = none →
      (demangle_symbol m).full = m.base ∧ (demangle_symbol m).hash = none) := by
  refine ⟨rfl, ?_, ?_⟩
  · intro suf hsuf
    rcases hcase : m.hashPart with _ | h
    · exfalso
      unfold demangle_symbol renderWithHash renderNoHash at hsuf
      rw [hcase] at hsuf
      simp only at hsuf
      rw [strFind_of_isPrefixOf m.base m.base
        (List.isPrefixOf_iff_prefix.mpr (List.prefix_refl m.base))] at hsuf
      simp only [Option.some_bind, strGetFrom] at hsuf
      rw [if_neg (by omega)] at hsuf
      simp at hsuf
    · unfold demangle_symbol renderWithHash renderNoHash at hsuf ⊢
      rw [hcase] at hsuf ⊢
      simp only at hsuf ⊢
      rw [strFind_prefix_self m.base (':' :: ':' :: h)] at hsuf
      simp only [Option.some_bind, strGetFrom] at hsuf
      rw [if_pos (by simp; omega)] at hsuf
      rw [show 0 + 2 + m.base.length = m.base.length + 2 by omega,
        List.drop_append 2] at hsuf
      rw [show List.drop 2 (':' :: ':' :: h) = h from rfl, Option.some_inj] at hsuf
      rw [← hsuf]
  · intro hnone
    refine ⟨rfl, ?_⟩
    show (demangle_symbol m).hash = none
    unfold demangle_symbol renderWithHash renderNoHash
    rw [hnone]
    simp only
    rw [strFind_of_isPrefixOf m.base m.base
      (List.isPrefixOf_iff_prefix.mpr (List.prefix_refl m.base))]
    simp only [Option.some_bind, strGetFrom]
    rw [if_neg (by omega)]

/-- Witness for C6 at a concrete mangled symbol with hash part h1. -/
theorem c6_demangler_round_trip_witness :
    (demangle_symbol { base := "foo".toList, hashPart := some ("h1".toList) }).hash =
      some ("h1".toList) ∧
    (demangle_symbol { base := "foo".toList, hashPart := some ("h1".toList) }).full ++
      ':' :: ':' :: "h1".toList =
      renderWithHash { base := "foo".toList, hashPart := some ("h1".toList) } :=
  ⟨by decide, (c6_demangler_round_trip _).2.1 ("h1".toList) (by decide)⟩

/-! ### Claim C10: the nano_core symbol file null terminator -/

theorem set_last_eq_dropLast_concat (l : List Nat) (h : 0 < l.length) :
    l.set (l.length - 1) 0 = l.dropLast ++ [0] := by
  induction l with
  | nil => simp at h
  | cons a t ih =>
    cases t with
    | nil => rfl
    | cons b t2 =>
      have hlen : (a :: b :: t2).length - 1 = (b :: t2).length - 1 + 1 := by
        simp
      rw [hlen]
      show a :: (b :: t2).set ((b :: t2).length - 1) 0 = (a :: b :: t2).dropLast ++ [0]
      rw [ih (by simp)]
      rfl

/-- Claim C10: parse_nano_core_symbols overwrites the final input byte
with a null byte before interpreting the region, so the C-string stage
yields exactly the first size - 1 bytes (provided they contain no interior
null), and the parsed symbol lines are the same for any two inputs that
agree on everything but the final byte. -/
theorem c10_nano_core_last_byte (decode : List Nat → Option Str)
    (bytes bytes2 : List Nat) (hlen : 0 < bytes.length)
    (hno : ¬ 0 ∈ bytes.dropLast) (hlen2 : bytes.length = bytes2.length)
    (hpre : bytes.dropLast = bytes2.dropLast) :
    cstrFromBytesWithNul (nanoCoreOverwrite bytes) = .ok bytes.dropLast ∧
    bytes.dropLast = bytes.take (bytes.length - 1) ∧
    nanoCoreLines decode bytes = nanoCoreLines decode bytes2 := by
  have hov : nanoCoreOverwrite bytes = bytes.dropLast ++ [0] := by
    unfold nanoCoreOverwrite
    exact set_last_eq_dropLast_concat bytes hlen
  have hov2 : nanoCoreOverwrite bytes2 = bytes2.dropLast ++ [0] := by
    unfold nanoCoreOverwrite
    exact set_last_eq_dropLast_concat bytes2 (by omega)
  have hcstr : cstrFromBytesWithNul (nanoCoreOverwrite bytes) = .ok bytes.dropLast := by
    rw [hov]
    unfold cstrFromBytesWithNul
    rw [if_pos ⟨List.getLast?_concat _, by rw [List.dropLast_concat]; exact hno⟩,
      List.dropLast_concat]
  refine ⟨hcstr, (List.dropLast_eq_take bytes), ?_⟩
  have hsame : nanoCoreOverwrite bytes = nanoCoreOverwrite bytes2 := by
    rw [hov, hov2, hpre]
  unfold nanoCoreLines nanoCoreText
  rw [hsame]

/-- Witness for C10 at a concrete pair of inputs differing only in the
final byte. -/
theorem c10_nano_core_last_byte_witness :
    cstrFromBytesWithNul (nanoCoreOverwrite [65, 66, 67]) = .ok [65, 66] ∧
    [65, 66] = List.take 2 [65, 66, 67] ∧
    nanoCoreLines (fun bs => some (bs.map Char.ofNat)) [65, 66, 67] =
      nanoCoreLines (fun bs => some (bs.map Char.ofNat)) [65, 66, 0] :=
  c10_nano_core_last_byte (fun bs => some (bs.map Char.ofNat)) [65, 66, 67] [65, 66, 0]
    (by decide) (by decide) (by decide) (by decide)

/-! ### Claim C3: zero-size section substitution -/

/-- Claim C3: a zero-size PROGBITS/NOBITS section reaching placement is
replaced by a view taking size, alignment and data from the immediately
following section header while keeping the current section's own name and
flags; the substitution is a single step (the resulting fields are the
next header's fields verbatim, even when that header is itself
zero-size). -/
theorem c3_zero_size_substitution (table : List ElfSection) (i : Nat)
    (sec nxt : ElfSection) (h0 : sec.size = 0)
    (hn : table.get? (i + 1) = some nxt) :
    sectionView table i sec =
      .ok { name := sec.name, flags := sec.flags, size := nxt.size,
            align := nxt.align, data := nxt.data } := by
  unfold sectionView
  rw [if_pos h0, hn]

/-- Witness for C3 on the concrete object whose first section is
zero-size: it borrows the second header's size, alignment and data. -/
theorem c3_zero_size_substitution_witness :
    sectionView c8badElf.sections 0
      { name := ".text.z".toList, shType := .ProgBits, flags := 6, size := 0,
        align := 16, data := .Undefined [], info := 0 } =
      .ok { name := ".text.z".toList, flags := 6, size := 8, align := 8,
            data := .Undefined (List.replicate 8 1) } :=
  c3_zero_size_substitution c8badElf.sections 0
    { name := ".text.z".toList, shType := .ProgBits, flags := 6, size := 0,
      align := 16, data := .Undefined [], info := 0 }
    { name := ".rodata.r".toList, shType := .ProgBits, flags := 2, size := 8,
      align := 8, data := .Undefined (List.replicate 8 1), info := 0 }
    rfl rfl

/-! ### The loader never writes the symbol registry -/

theorem processRelaEntry_reg (dem : Str → DemangledSymbol)
    (symtab : List SymEntry) (loaded : List (Nat × LoadedSection))
    (tgtVA : Nat) (m : Mem) (reg : Registry) (r : RelaEntry) :
    (processRelaEntry dem symtab loaded tgtVA m reg r).2 = reg := by
  unfold processRelaEntry
  rcases hget : symtab.get? r.symIndex with _ | entry
  · rfl
  · simp only
    rcases hres : resolveSourceSec dem loaded reg entry with e | src
    · rfl
    · repeat' split
      all_goals rfl

theorem relaEntriesLoop_reg (dem : Str → DemangledSymbol)
    (symtab : List SymEntry) (loaded : List (Nat × LoadedSection))
    (tgtVA : Nat) (arr : List RelaEntry) : ∀ (m : Mem) (reg : Registry),
    (relaEntriesLoop dem symtab loaded tgtVA arr m reg).2 = reg := by
  induction arr with
  | nil => intro m reg; rfl
  | cons r rest ih =>
    intro m reg
    show (match processRelaEntry dem symtab loaded tgtVA m reg r with
      | (Except.error e, reg') => (Except.error e, reg')
      | (Except.ok m', reg') =>
        relaEntriesLoop dem symtab loaded tgtVA rest m' reg').2 = reg
    have hreg := processRelaEntry_reg dem symtab loaded tgtVA m reg r
    rcases hp : processRelaEntry dem symtab loaded tgtVA m reg r with ⟨res, reg2⟩
    rw [hp] at hreg
    rcases res with e | m'
    · exact hreg
    · rw [ih m' reg2]
      exact hreg

theorem relaSectionStep_reg (dem : Str → DemangledSymbol)
    (symtab : List SymEntry) (loaded : List (Nat × LoadedSection))
    (sec : ElfSection) (m : Mem) (reg : Registry) :
    (relaSectionStep dem symtab loaded sec m reg).2 = reg := by
  unfold relaSectionStep
  repeat' split
  all_goals first
    | rfl
    | exact relaEntriesLoop_reg dem symtab loaded _ _ m reg

theorem relocLoop_reg (dem : Str → DemangledSymbol) (symtab : List SymEntry)
    (loaded : List (Nat × LoadedSection)) (secs : List ElfSection) :
    ∀ (m : Mem) (reg : Registry),
    (relocLoop dem symtab loaded secs m reg).2 = reg := by
  induction secs with
  | nil => intro m reg; rfl
  | cons s rest ih =>
    intro m reg
    show (match relaSectionStep dem symtab loaded s m reg with
      | (Except.error e, reg') => (Except.error e, reg')
      | (Except.ok m', reg') => relocLoop dem symtab loaded rest m' reg').2 = reg
    have hreg := relaSectionStep_reg dem symtab loaded s m reg
    rcases hp : relaSectionStep dem symtab loaded s m reg with ⟨res, reg2⟩
    rw [hp] at hreg
    rcases res with e | m'
    · exact hreg
    · rw [ih m' reg2]
      exact hreg

/-! ### Inversion of a successful load -/

theorem parse_ok_inv (dem : Str → DemangledSymbol) (elf : ElfFile)
    (module_name : Str) (tb rb db : Nat) (mem0 : Mem) (reg : Registry)
    (cr : LoadedCrate) (reg2 : Registry)
    (hok : parseElfKernelCrate dem elf module_name tb rb db mem0 reg =
      (.ok cr, reg2)) :
    ∃ symtab pst m',
      ("__k_".toList).isPrefixOf module_name = true ∧
      elf.etype = .Relocatable ∧
      symtabOf elf = .ok symtab ∧
      placeLoop dem elf.sections (globalSections symtab)
        (allocRegion (planBytes elf.sections).1 tb "no text sections present")
        (allocRegion (planBytes elf.sections).2.1 rb "no rodata sections present")
        (allocRegion (planBytes elf.sections).2.2 db "no data sections present")
        (enumFrom 0 elf.sections)
        { loaded := [], textOff := 0, rodataOff := 0, dataOff := 0,
          mem := mem0 } = .ok pst ∧
      relocLoop dem symtab pst.loaded elf.sections pst.mem reg = (.ok m', reg2) ∧
      cr = { crate_name := module_name.drop 4,
             sections := pst.loaded.map Prod.snd,
             mapped_pages :=
               exceptToList (allocRegion (planBytes elf.sections).1 tb
                 "no text sections present") ++
               exceptToList (allocRegion (planBytes elf.sections).2.1 rb
                 "no rodata sections present") ++
               exceptToList (allocRegion (planBytes elf.sections).2.2 db
                 "no data sections present") } := by
  unfold parseElfKernelCrate at hok
  by_cases hpre : ("__k_".toList).isPrefixOf module_name = false
  · rw [if_pos hpre] at hok
    simp at hok
  · rw [if_neg hpre] at hok
    have hpre2 : ("__k_".toList).isPrefixOf module_name = true := by
      revert hpre
      cases ("__k_".toList).isPrefixOf module_name <;> simp
    by_cases het : elf.etype ≠ ElfTy.Relocatable
    · rw [if_pos het] at hok
      simp at hok
    · rw [if_neg het] at hok
      rcases hsym : symtabOf elf with e | symtab
      · rw [hsym] at hok
        simp at hok
      · rw [hsym] at hok
        simp only at hok
        rcases hplace : placeLoop dem elf.sections (globalSections symtab)
            (allocRegion (planBytes elf.sections).1 tb "no text sections present")
            (allocRegion (planBytes elf.sections).2.1 rb "no rodata sections present")
            (allocRegion (planBytes elf.sections).2.2 db "no data sections present")
            (enumFrom 0 elf.sections)
            { loaded := [], textOff := 0, rodataOff := 0, dataOff := 0,
              mem := mem0 } with e | pst
        · rw [hplace] at hok
          simp at hok
        · rw [hplace] at hok
          simp only at hok
          rcases hrel : relocLoop dem symtab pst.loaded elf.sections pst.mem reg
            with ⟨res, reg3⟩
          rw [hrel] at hok
          rcases res with e | m'
          · simp at hok
          · simp only [Prod.mk.injEq, Except.ok.injEq] at hok
            refine ⟨symtab, pst, m', hpre2, not_ne_iff.mp het, rfl, hplace, ?_, ?_⟩
            · rw [hrel, hok.2]
            · exact hok.1.symm

/-! ### Claim C5: the module-name prefix gate -/

/-- Claim C5: a module name without the agreed prefix makes the load fail
immediately (registry untouched: the returned registry is the input one);
a successful load names the crate by stripping the four-character prefix
from the module name. -/
theorem c5_module_name_gate (dem : Str → DemangledSymbol) (elf : ElfFile)
    (module_name : Str) (tb rb db : Nat) (mem0 : Mem) (reg : Registry) :
    (("__k_".toList).isPrefixOf module_name = false →
      parseElfKernelCrate dem elf module_name tb rb db mem0 reg =
        (.error "module_name did not start with __k_", reg)) ∧
    (∀ cr reg2,
      parseElfKernelCrate dem elf module_name tb rb db mem0 reg = (.ok cr, reg2) →
      ("__k_".toList).isPrefixOf module_name = true ∧
      cr.crate_name = module_name.drop 4) := by
  constructor
  · intro h
    unfold parseElfKernelCrate
    rw [if_pos h]
  · intro cr reg2 hok
    obtain ⟨symtab, pst, m', hpre, _, _, _, _, hcr⟩ :=
      parse_ok_inv dem elf module_name tb rb db mem0 reg cr reg2 hok
    exact ⟨hpre, by rw [hcr]⟩

/-- Witness for C5: the bad name core_utils is rejected with the registry
unchanged, and the good name loses its prefix. -/
theorem c5_module_name_gate_witness :
    parseElfKernelCrate demId s1elf ("core_utils".toList) 4096 8192 12288
      memZero [] = (.error "module_name did not start with __k_", []) ∧
    ({ crate_name := "foo".toList,
       sections := [ { cls := .Text, abs_symbol := "foo".toList, hash := none,
                       virt_addr := 4096, size := 16, global := true } ],
       mapped_pages := [ { base := 4096, size := 16 } ] } :
      LoadedCrate).crate_name = ("__k_foo".toList).drop 4 :=
  ⟨(c5_module_name_gate demId s1elf ("core_utils".toList) 4096 8192 12288
      memZero []).1 (by decide),
   ((c5_module_name_gate demId s1elf ("__k_foo".toList) 4096 8192 12288
      memZero []).2 _ [] (by rfl)).2⟩

/-! ### Claim C1: the loader does not publish global sections -/

/-- Counterexample to C1: a successful load of a module with a global text
section foo leaves the registry empty, so get_symbol on the section's
canonical name cannot yield a handle to it. -/
theorem c1_counterexample :
    (parseElfKernelCrate demId s1elf ("__k_foo".toList) 4096 8192 12288
      memZero []).1 =
      .ok { crate_name := "foo".toList,
            sections := [ { cls := .Text, abs_symbol := "foo".toList,
                            hash := none, virt_addr := 4096, size := 16,
                            global := true } ],
            mapped_pages := [ { base := 4096, size := 16 } ] } ∧
    (parseElfKernelCrate demId s1elf ("__k_foo".toList) 4096 8192 12288
      memZero []).2 = [] ∧
    get_symbol_upgrade [] ("foo".toList) = none :=
  ⟨rfl, rfl, rfl⟩

/-- Amended claim C1: parse_elf_kernel_crate never modifies the Symbol
Registry; it only reads it during relocation resolution, so after a load
(successful or not) the registry is exactly the input registry, and a
global section of the returned crate is resolvable only if its name was
already registered.  Publication is left to the caller. -/
theorem c1_registry_unchanged (dem : Str → DemangledSymbol) (elf : ElfFile)
    (module_name : Str) (tb rb db : Nat) (mem0 : Mem) (reg : Registry) :
    (parseElfKernelCrate dem elf module_name tb rb db mem0 reg).2 = reg := by
  unfold parseElfKernelCrate
  by_cases hpre : ("__k_".toList).isPrefixOf module_name = false
  · rw [if_pos hpre]
  · rw [if_neg hpre]
    by_cases het : elf.etype ≠ ElfTy.Relocatable
    · rw [if_pos het]
    · rw [if_neg het]
      rcases hsym : symtabOf elf with e | symtab
      · rfl
      · simp only
        rcases hplace : placeLoop dem elf.sections (globalSections symtab)
            (allocRegion (planBytes elf.sections).1 tb "no text sections present")
            (allocRegion (planBytes elf.sections).2.1 rb "no rodata sections present")
            (allocRegion (planBytes elf.sections).2.2 db "no data sections present")
            (enumFrom 0 elf.sections)
            { loaded := [], textOff := 0, rodataOff := 0, dataOff := 0,
              mem := mem0 } with e | pst
        · rfl
        · simp only
          have hreg := relocLoop_reg dem symtab pst.loaded elf.sections pst.mem reg
          rcases hrel : relocLoop dem symtab pst.loaded elf.sections pst.mem reg
            with ⟨res, reg3⟩
          rw [hrel] at hreg
          rcases res with e | m'
          · exact hreg
          · exact hreg

/-! ### Claim C7: skippable relocation sections -/

/-- Claim C7: a RELA section whose name begins with one of the ignorable
families, or whose target (info field) was not loaded in Phase D, is
skipped: the relocation step leaves the state untouched and returns no
error. -/
theorem c7_skippable_rela_sections (dem : Str → DemangledSymbol)
    (symtab : List SymEntry) (loaded : List (Nat × LoadedSection))
    (sec : ElfSection) (m : Mem) (reg : Registry)
    (hty : sec.shType = .Rela)
    (h : skipRelaName sec.name = true ∨ lookupA loaded sec.info = none) :
    relaSectionStep dem symtab loaded sec m reg = (.ok m, reg) := by
  unfold relaSectionStep
  rw [if_pos hty]
  by_cases hsz : sec.size = 0
  · rw [if_pos hsz]
  · rw [if_neg hsz]
    by_cases hskip : skipRelaName sec.name = true
    · rw [if_pos hskip]
    · rw [if_neg hskip]
      rcases h with h | h
      · exact absurd h hskip
      · rw [h]

/-- Witness for C7 at a concrete ignorable relocation section. -/
theorem c7_skippable_rela_sections_witness :
    relaSectionStep demId [] []
      { name := ".rela.debug_info".toList, shType := .Rela, flags := 0,
        size := 24, align := 8, data := .Rela64 [], info := 5 }
      memZero [] = (.ok memZero, []) :=
  c7_skippable_rela_sections demId [] []
    { name := ".rela.debug_info".toList, shType := .Rela, flags := 0,
      size := 24, align := 8, data := .Rela64 [], info := 5 }
    memZero [] rfl (Or.inl (by decide))

/-! ### Error propagation through the loader loops -/

theorem placeLoop_error (dem : Str → DemangledSymbol)
    (table : List ElfSection) (globals : List Nat)
    (tp rp dp : Except Err Region) (p : Nat × ElfSection)
    (herr : ∀ st, ∃ e, placeStep dem table globals tp rp dp st p = .error e) :
    ∀ (ps : List (Nat × ElfSection)), p ∈ ps → ∀ st,
    ∃ e, placeLoop dem table globals tp rp dp ps st = .error e := by
  intro ps
  induction ps with
  | nil => intro hmem; cases hmem
  | cons q rest ih =>
    intro hmem st
    show ∃ e, (match placeStep dem table globals tp rp dp st q with
      | Except.error e => Except.error e
      | Except.ok st' => placeLoop dem table globals tp rp dp rest st') =
      Except.error e
    rcases hq : placeStep dem table globals tp rp dp st q with e | st'
    · exact ⟨e, rfl⟩
    · rcases List.mem_cons.mp hmem with rfl | hmem2
      · obtain ⟨e, he⟩ := herr st
        rw [hq] at he
        cases he
      · exact ih hmem2 st'

theorem relaEntriesLoop_error (dem : Str → DemangledSymbol)
    (symtab : List SymEntry) (loaded : List (Nat × LoadedSection))
    (tgtVA : Nat) (r : RelaEntry)
    (herr : ∀ (m : Mem) (reg : Registry), ∃ e,
      (processRelaEntry dem symtab loaded tgtVA m reg r).1 = .error e) :
    ∀ (arr : List RelaEntry), r ∈ arr → ∀ (m : Mem) (reg : Registry),
    ∃ e reg2, relaEntriesLoop dem symtab loaded tgtVA arr m reg =
      (.error e, reg2) := by
  intro arr
  induction arr with
  | nil => intro hmem; cases hmem
  | cons a rest ih =>
    intro hmem m reg
    show ∃ e reg2, (match processRelaEntry dem symtab loaded tgtVA m reg a with
      | (Except.error e, reg') => (Except.error e, reg')
      | (Except.ok m', reg') =>
        relaEntriesLoop dem symtab loaded tgtVA rest m' reg') = (Except.error e, reg2)
    rcases ha : processRelaEntry dem symtab loaded tgtVA m reg a with ⟨res, reg3⟩
    rcases res with e | m'
    · exact ⟨e, reg3, rfl⟩
    · rcases List.mem_cons.mp hmem with rfl | hmem2
      · obtain ⟨e, he⟩ := herr m reg
        rw [ha] at he
        cases he
      · exact ih hmem2 m' reg3

theorem relocLoop_error (dem : Str → DemangledSymbol)
    (symtab : List SymEntry) (loaded : List (Nat × LoadedSection))
    (sec : ElfSection)
    (herr : ∀ (m : Mem) (reg : Registry), ∃ e,
      (relaSectionStep dem symtab loaded sec m reg).1 = .error e) :
    ∀ (secs : List ElfSection), sec ∈ secs → ∀ (m : Mem) (reg : Registry),
    ∃ e reg2, relocLoop dem symtab loaded secs m reg = (.error e, reg2) := by
  intro secs
  induction secs with
  | nil => intro hmem; cases hmem
  | cons s rest ih =>
    intro hmem m reg
    show ∃ e reg2, (match relaSectionStep dem symtab loaded s m reg with
      | (Except.error e, reg') => (Except.error e, reg')
      | (Except.ok m', reg') => relocLoop dem symtab loaded rest m' reg') =
      (Except.error e, reg2)
    rcases hs : relaSectionStep dem symtab loaded s m reg with ⟨res, reg3⟩
    rcases res with e | m'
    · exact ⟨e, reg3, rfl⟩
    · rcases List.mem_cons.mp hmem with rfl | hmem2
      · obtain ⟨e, he⟩ := herr m reg
        rw [hs] at he
        cases he
      · exact ih hmem2 m' reg3

theorem processRelaEntry_unsupported (dem : Str → DemangledSymbol)
    (symtab : List SymEntry) (loaded : List (Nat × LoadedSection))
    (tgtVA : Nat) (r : RelaEntry)
    (hu : supportedReloc r.relocType = false) :
    ∀ (m : Mem) (reg : Registry), ∃ e,
    (processRelaEntry dem symtab loaded tgtVA m reg r).1 = .error e := by
  intro m reg
  unfold processRelaEntry
  rcases symtab.get? r.symIndex with _ | entry
  · exact ⟨_, rfl⟩
  · simp only
    rcases resolveSourceSec dem loaded reg entry with e | src
    · exact ⟨e, rfl⟩
    · simp only
      simp only [supportedReloc, Bool.or_eq_false_iff, decide_eq_false_iff_not] at hu
      rw [if_neg hu.1.1.1, if_neg hu.1.1.2, if_neg hu.1.2, if_neg hu.2]
      exact ⟨_, rfl⟩

theorem relaSectionStep_unsupported (dem : Str → DemangledSymbol)
    (symtab : List SymEntry) (loaded : List (Nat × LoadedSection))
    (sec : ElfSection) (arr : List RelaEntry) (r : RelaEntry)
    (hty : sec.shType = .Rela) (hsz : sec.size ≠ 0)
    (hskip : skipRelaName sec.name = false)
    (htgt : ∃ t, lookupA loaded sec.info = some t)
    (hdata : sec.data = .Rela64 arr) (hr : r ∈ arr)
    (hu : supportedReloc r.relocType = false) :
    ∀ (m : Mem) (reg : Registry), ∃ e,
    (relaSectionStep dem symtab loaded sec m reg).1 = .error e := by
  intro m reg
  unfold relaSectionStep
  rw [if_pos hty, if_neg hsz, if_neg (by simp [hskip])]
  obtain ⟨t, ht⟩ := htgt
  rw [ht, hdata]
  simp only
  obtain ⟨e, reg2, hloop⟩ :=
    relaEntriesLoop_error dem symtab loaded t.virt_addr r
      (processRelaEntry_unsupported dem symtab loaded t.virt_addr r hu)
      arr hr m reg
  exact ⟨e, by rw [hloop]⟩

/-! ### Claim C2: relocation formulas and unsupported types -/

/-- Claim C2: an applied relocation entry writes, at the destination
pointer target address plus offset, exactly the value of the spec table
(32-bit truncation or full 64 bits of source address plus addend, with
the destination subtracted for the PC-relative forms, all wrapping), and
reading the written bytes back yields that value; a relocation entry of
any unsupported type makes the entry processing, and with it the whole
load of an object whose processed Rela section contains such an entry,
return an error. -/
theorem c2_relocation_formulas (dem : Str → DemangledSymbol)
    (symtab : List SymEntry) (loaded : List (Nat × LoadedSection))
    (tgtVA : Nat) (m : Mem) (reg : Registry) (r : RelaEntry)
    (entry : SymEntry) (src : LoadedSection)
    (hget : symtab.get? r.symIndex = some entry)
    (hres : resolveSourceSec dem loaded reg entry = .ok src) :
    (∀ w v, specRelocTable r.relocType src.virt_addr r.addend
        (tgtVA + r.offset) = some (w, v) →
      processRelaEntry dem symtab loaded tgtVA m reg r =
        (.ok (writeLE m (tgtVA + r.offset) w v), reg) ∧
      readLE (writeLE m (tgtVA + r.offset) w v) (tgtVA + r.offset) w = v) ∧
    (specRelocTable r.relocType src.virt_addr r.addend (tgtVA + r.offset) =
        none →
      processRelaEntry dem symtab loaded tgtVA m reg r =
        (.error "found unsupported relocation type", reg)) ∧
    (∀ (elf : ElfFile) (module_name : Str) (tb rb db : Nat) (mem0 : Mem)
        (reg0 : Registry) (symtab2 : List SymEntry) (pst : PState)
        (sec : ElfSection) (arr : List RelaEntry) (r2 : RelaEntry),
      symtabOf elf = .ok symtab2 →
      placeLoop dem elf.sections (globalSections symtab2)
        (allocRegion (planBytes elf.sections).1 tb "no text sections present")
        (allocRegion (planBytes elf.sections).2.1 rb "no rodata sections present")
        (allocRegion (planBytes elf.sections).2.2 db "no data sections present")
        (enumFrom 0 elf.sections)
        { loaded := [], textOff := 0, rodataOff := 0, dataOff := 0,
          mem := mem0 } = .ok pst →
      sec ∈ elf.sections → sec.shType = .Rela → sec.size ≠ 0 →
      skipRelaName sec.name = false →
      (∃ t, lookupA pst.loaded sec.info = some t) →
      sec.data = .Rela64 arr → r2 ∈ arr →
      supportedReloc r2.relocType = false →
      ∀ cr reg2, parseElfKernelCrate dem elf module_name tb rb db mem0 reg0 ≠
        (.ok cr, reg2)) := by
  refine ⟨?_, ?_, ?_⟩
  · intro w v hspec
    unfold processRelaEntry
    rw [hget]
    simp only
    rw [hres]
    simp only
    unfold specRelocTable at hspec
    by_cases h32 : r.relocType = R_X86_64_32
    · rw [if_pos h32] at hspec
      rw [if_pos h32]
      rcases hspec with ⟨rfl, rfl⟩
      refine ⟨rfl, ?_⟩
      rw [readLE_writeLE]
      exact Nat.mod_eq_of_lt (Nat.lt_of_lt_of_le
        (Nat.mod_lt _ (by norm_num)) (by norm_num))
    · rw [if_neg h32] at hspec
      rw [if_neg h32]
      by_cases h64 : r.relocType = R_X86_64_64
      · rw [if_pos h64] at hspec
        rw [if_pos h64]
        rcases hspec with ⟨rfl, rfl⟩
        refine ⟨rfl, ?_⟩
        rw [readLE_writeLE]
        exact Nat.mod_eq_of_lt (Nat.lt_of_lt_of_le
          (Nat.mod_lt _ (by norm_num)) (by norm_num))
      · rw [if_neg h64] at hspec
        rw [if_neg h64]
        by_cases hpc32 : r.relocType = R_X86_64_PC32
        · rw [if_pos hpc32] at hspec
          rw [if_pos hpc32]
          rcases hspec with ⟨rfl, rfl⟩
          refine ⟨rfl, ?_⟩
          rw [readLE_writeLE]
          exact Nat.mod_eq_of_lt (Nat.lt_of_lt_of_le
            (Nat.mod_lt _ (by norm_num)) (by norm_num))
        · rw [if_neg hpc32] at hspec
          rw [if_neg hpc32]
          by_cases hpc64 : r.relocType = R_X86_64_PC64
          · rw [if_pos hpc64] at hspec
            rw [if_pos hpc64]
            rcases hspec with ⟨rfl, rfl⟩
            refine ⟨rfl, ?_⟩
            rw [readLE_writeLE]
            exact Nat.mod_eq_of_lt (Nat.lt_of_lt_of_le
              (Nat.mod_lt _ (by norm_num)) (by norm_num))
          · rw [if_neg hpc64] at hspec
            cases hspec
  · intro hspec
    unfold processRelaEntry
    rw [hget]
    simp only
    rw [hres]
    simp only
    unfold specRelocTable at hspec
    by_cases h32 : r.relocType = R_X86_64_32
    · rw [if_pos h32] at hspec; cases hspec
    · rw [if_neg h32] at hspec
      rw [if_neg h32]
      by_cases h64 : r.relocType = R_X86_64_64
      · rw [if_pos h64] at hspec; cases hspec
      · rw [if_neg h64] at hspec
        rw [if_neg h64]
        by_cases hpc32 : r.relocType = R_X86_64_PC32
        · rw [if_pos hpc32] at hspec; cases hspec
        · rw [if_neg hpc32] at hspec
          rw [if_neg hpc32]
          by_cases hpc64 : r.relocType = R_X86_64_PC64
          · rw [if_pos hpc64] at hspec; cases hspec
          · rw [if_neg hpc64]
  · intro elf module_name tb rb db mem0 reg0 symtab2 pst sec arr r2
      hsym hplace hsec hty hsz hskip htgt hdata hr2 hu cr reg2 hok
    obtain ⟨symtab3, pst2, m', _, _, hsym2, hplace2, hrel, _⟩ :=
      parse_ok_inv dem elf module_name tb rb db mem0 reg0 cr reg2 hok
    rw [hsym] at hsym2
    cases hsym2
    rw [hplace] at hplace2
    cases hplace2
    obtain ⟨e, reg3, hloop⟩ :=
      relocLoop_error dem symtab2 pst.loaded sec
        (relaSectionStep_unsupported dem symtab2 pst.loaded sec arr r2
          hty hsz hskip htgt hdata hr2 hu)
        elf.sections hsec pst.mem reg0
    rw [hloop] at hrel
    cases hrel

/-- Witness for C2 at a concrete R_X86_64_64 entry against a section at
address 8192, target section at 12288, entry offset 8. -/
theorem c2_relocation_formulas_witness :
    processRelaEntry demId symtabW loadedW 12288 memZero [] relaW =
      (.ok (writeLE memZero 12296 8 (wadd 8192 0)), []) ∧
    readLE (writeLE memZero 12296 8 (wadd 8192 0)) 12296 8 = wadd 8192 0 :=
  (c2_relocation_formulas demId symtabW loadedW 12288 memZero [] relaW
    { nameOpt := some ("abc".toList), typ := .Func, bind := .Global,
      vis := .Default, shndx := 3 }
    { cls := .Text, abs_symbol := "t".toList, hash := none, virt_addr := 8192,
      size := 16, global := false } rfl rfl).1 8 (wadd 8192 0) rfl

/-! ### The shape of one successful placement step -/

theorem sectionView_align_mem (table : List ElfSection) (i : Nat)
    (sec : ElfSection) (v : SecView) (hmem : sec ∈ table)
    (hv : sectionView table i sec = .ok v) :
    ∃ s ∈ table, v.align = s.align := by
  unfold sectionView at hv
  by_cases h0 : sec.size = 0
  · rw [if_pos h0] at hv
    rcases hn : table.get? (i + 1) with _ | nxt
    · rw [hn] at hv; cases hv
    · rw [hn] at hv
      cases hv
      exact ⟨nxt, List.get?_mem hn, rfl⟩
  · rw [if_neg h0] at hv
    cases hv
    exact ⟨sec, hmem, rfl⟩

theorem placeStep_shape (dem : Str → DemangledSymbol)
    (table : List ElfSection) (globals : List Nat)
    (tp rp dp : Except Err Region) (st : PState) (p : Nat × ElfSection)
    (st' : PState)
    (hstep : placeStep dem table globals tp rp dp st p = .ok st') :
    (st'.loaded = st.loaded ∧ st'.textOff = st.textOff ∧
      st'.rodataOff = st.rodataOff ∧ st'.dataOff = st.dataOff) ∨
    (∃ v rg sNew,
      sectionView table p.1 p.2 = .ok v ∧
      sNew.size = v.size ∧
      st'.loaded = st.loaded ++ [(p.1, sNew)] ∧
      ((sNew.cls = .Text ∧ tp = .ok rg ∧
          sNew.virt_addr = rg.base + st.textOff ∧
          st'.textOff = st.textOff + roundUpPow2 v.size v.align ∧
          st'.rodataOff = st.rodataOff ∧ st'.dataOff = st.dataOff) ∨
       (sNew.cls = .Rodata ∧ rp = .ok rg ∧
          sNew.virt_addr = rg.base + st.rodataOff ∧
          st'.rodataOff = st.rodataOff + roundUpPow2 v.size v.align ∧
          st'.textOff = st.textOff ∧ st'.dataOff = st.dataOff) ∨
       (sNew.cls = .Data ∧ dp = .ok rg ∧
          sNew.virt_addr = rg.base + st.dataOff ∧
          st'.dataOff = st.dataOff + roundUpPow2 v.size v.align ∧
          st'.textOff = st.textOff ∧ st'.rodataOff = st.rodataOff))) := by
  unfold placeStep at hstep
  simp only at hstep
  by_cases htyp : (p.2.shType = ShTy.ProgBits ∨ p.2.shType = ShTy.NoBits)
  · rw [if_pos htyp] at hstep
    rcases hview : sectionView table p.1 p.2 with e | v
    · rw [hview] at hstep
      cases hstep
    · rw [hview] at hstep
      simp only at hstep
      rcases hdata : getSecData p.2.name v.data with e | dataBytes
      · rw [hdata] at hstep
        cases hstep
      · rw [hdata] at hstep
        simp only at hstep
        by_cases ht : TEXT_PREFIX.isPrefixOf p.2.name = true
        · rw [if_pos ht] at hstep
          by_cases hfl : p.2.flags &&& (SHF_ALLOC ||| SHF_WRITE ||| SHF_EXECINSTR) =
              SHF_ALLOC ||| SHF_EXECINSTR
          · rw [if_pos hfl] at hstep
            rcases htp : tp with e2 | rg
            · rw [htp] at hstep
              cases hstep
            · rw [htp] at hstep
              simp only at hstep
              by_cases hlen : dataBytes.length = v.size
              · rw [if_pos hlen] at hstep
                cases hstep
                right
                refine ⟨v, rg, _, rfl, rfl, rfl, Or.inl ⟨rfl, rfl, rfl, rfl, rfl, rfl⟩⟩
              · rw [if_neg hlen] at hstep
                cases hstep
          · rw [if_neg hfl] at hstep
            cases hstep
        · rw [if_neg ht] at hstep
          by_cases hro : RODATA_PREFIX.isPrefixOf p.2.name = true
          · rw [if_pos hro] at hstep
            by_cases hfl : p.2.flags &&& (SHF_ALLOC ||| SHF_WRITE ||| SHF_EXECINSTR) =
                SHF_ALLOC
            · rw [if_pos hfl] at hstep
              rcases hrp : rp with e2 | rg
              · rw [hrp] at hstep
                cases hstep
              · rw [hrp] at hstep
                simp only at hstep
                by_cases hlen : dataBytes.length = v.size
                · rw [if_pos hlen] at hstep
                  cases hstep
                  right
                  refine ⟨v, rg, _, rfl, rfl, rfl,
                    Or.inr (Or.inl ⟨rfl, rfl, rfl, rfl, rfl, rfl⟩)⟩
                · rw [if_neg hlen] at hstep
                  cases hstep
            · rw [if_neg hfl] at hstep
              cases hstep
          · rw [if_neg hro] at hstep
            by_cases hda : DATA_PREFIX.isPrefixOf p.2.name = true
            · rw [if_pos hda] at hstep
              by_cases hfl : p.2.flags &&& (SHF_ALLOC ||| SHF_WRITE ||| SHF_EXECINSTR) =
                  SHF_ALLOC ||| SHF_WRITE
              · rw [if_pos hfl] at hstep
                rcases hdp : dp with e2 | rg
                · rw [hdp] at hstep
                  cases hstep
                · rw [hdp] at hstep
                  simp only at hstep
                  by_cases hlen : dataBytes.length = v.size
                  · rw [if_pos hlen] at hstep
                    cases hstep
                    right
                    refine ⟨v, rg, _, rfl, rfl, rfl,
                      Or.inr (Or.inr ⟨rfl, rfl, rfl, rfl, rfl, rfl⟩)⟩
                  · rw [if_neg hlen] at hstep
                    cases hstep
              · rw [if_neg hfl] at hstep
                cases hstep
            · rw [if_neg hda] at hstep
              by_cases hbs : BSS_PREFIX.isPrefixOf p.2.name = true
              · rw [if_pos hbs] at hstep
                by_cases hfl : p.2.flags &&& (SHF_ALLOC ||| SHF_WRITE ||| SHF_EXECINSTR) =
                    SHF_ALLOC ||| SHF_WRITE
                · rw [if_pos hfl] at hstep
                  rcases hdp : dp with e2 | rg
                  · rw [hdp] at hstep
                    cases hstep
                  · rw [hdp] at hstep
                    simp only at hstep
                    cases hstep
                    right
                    refine ⟨v, rg, _, rfl, rfl, rfl,
                      Or.inr (Or.inr ⟨rfl, rfl, rfl, rfl, rfl, rfl⟩)⟩
                · rw [if_neg hfl] at hstep
                  cases hstep
              · rw [if_neg hbs] at hstep
                by_cases hign : ((".note".toList).isPrefixOf p.2.name ∨
                    (".gcc".toList).isPrefixOf p.2.name ∨
                    (".debug".toList).isPrefixOf p.2.name ∨
                    p.2.name = ".text".toList)
                · rw [if_pos hign] at hstep
                  cases hstep
                  exact Or.inl ⟨rfl, rfl, rfl, rfl⟩
                · rw [if_neg hign] at hstep
                  cases hstep
                  exact Or.inl ⟨rfl, rfl, rfl, rfl⟩
  · rw [if_neg htyp] at hstep
    cases hstep
    exact Or.inl ⟨rfl, rfl, rfl, rfl⟩

/-! ### Preservation of the placement invariant -/

theorem enumFrom_snd_mem {α : Type} :
    ∀ (l : List α) (i : Nat) (q : Nat × α), q ∈ enumFrom i l → q.2 ∈ l := by
  intro l
  induction l with
  | nil => intro i q h; cases h
  | cons a t ih =>
    intro i q h
    rcases List.mem_cons.mp h with rfl | h2
    · exact List.mem_cons_self a t
    · exact List.mem_cons_of_mem a (ih (i + 1) q h2)

theorem placeStep_inv (dem : Str → DemangledSymbol) (table : List ElfSection)
    (globals : List Nat) (tp rp dp : Except Err Region) (st : PState)
    (p : Nat × ElfSection) (st' : PState)
    (halign : ∀ s ∈ table, 0 < s.align) (hmem : p.2 ∈ table)
    (hstep : placeStep dem table globals tp rp dp st p = .ok st')
    (hinv : placementInv tp rp dp st) : placementInv tp rp dp st' := by
  rcases placeStep_shape dem table globals tp rp dp st p st' hstep with
    ⟨hl, ht, hr, hd⟩ | ⟨v, rg, sNew, hview, hsize, hl, hcase⟩
  · constructor
    · intro q hq
      rw [hl] at hq
      obtain ⟨h1, h2, h3⟩ := hinv.1 q hq
      refine ⟨?_, ?_, ?_⟩
      · intro hc
        obtain ⟨rg2, hrg2, hb⟩ := h1 hc
        exact ⟨rg2, hrg2, by rw [ht]; exact hb⟩
      · intro hc
        obtain ⟨rg2, hrg2, hb⟩ := h2 hc
        exact ⟨rg2, hrg2, by rw [hr]; exact hb⟩
      · intro hc
        obtain ⟨rg2, hrg2, hb⟩ := h3 hc
        exact ⟨rg2, hrg2, by rw [hd]; exact hb⟩
    · rw [hl]
      exact hinv.2
  · have halignv : 0 < v.align := by
      obtain ⟨s, hs, he⟩ := sectionView_align_mem table p.1 p.2 v hmem hview
      rw [he]
      exact halign s hs
    have hge : v.size ≤ roundUpPow2 v.size v.align := le_roundUpPow2 _ _ halignv
    rcases hcase with ⟨hcls, hreg, hva, hoff, ho2, ho3⟩ |
      ⟨hcls, hreg, hva, hoff, ho2, ho3⟩ | ⟨hcls, hreg, hva, hoff, ho2, ho3⟩
    · constructor
      · intro q hq
        rw [hl] at hq
        rcases List.mem_append.mp hq with hq | hq
        · obtain ⟨h1, h2, h3⟩ := hinv.1 q hq
          refine ⟨?_, ?_, ?_⟩
          · intro hc
            obtain ⟨rg2, hrg2, hb⟩ := h1 hc
            refine ⟨rg2, hrg2, ?_⟩
            rw [hoff]
            omega
          · intro hc
            obtain ⟨rg2, hrg2, hb⟩ := h2 hc
            exact ⟨rg2, hrg2, by rw [ho2]; exact hb⟩
          · intro hc
            obtain ⟨rg2, hrg2, hb⟩ := h3 hc
            exact ⟨rg2, hrg2, by rw [ho3]; exact hb⟩
        · simp only [List.mem_singleton] at hq
          subst hq
          refine ⟨?_, ?_, ?_⟩
          · intro _
            refine ⟨rg, hreg, ?_⟩
            simp only [hva, hoff, hsize]
            omega
          · intro hc
            rw [hcls] at hc
            cases hc
          · intro hc
            rw [hcls] at hc
            cases hc
      · rw [hl]
        apply List.pairwise_append.mpr
        refine ⟨hinv.2, List.pairwise_singleton _ _, ?_⟩
        intro a ha b hb hcls2
        simp only [List.mem_singleton] at hb
        subst hb
        obtain ⟨h1, _, _⟩ := hinv.1 a ha
        rw [hcls] at hcls2
        obtain ⟨rg2, hrg2, hb2⟩ := h1 hcls2
        rw [hreg] at hrg2
        cases hrg2
        left
        rw [hva]
        exact hb2
    · constructor
      · intro q hq
        rw [hl] at hq
        rcases List.mem_append.mp hq with hq | hq
        · obtain ⟨h1, h2, h3⟩ := hinv.1 q hq
          refine ⟨?_, ?_, ?_⟩
          · intro hc
            obtain ⟨rg2, hrg2, hb⟩ := h1 hc
            exact ⟨rg2, hrg2, by rw [ho2]; exact hb⟩
          · intro hc
            obtain ⟨rg2, hrg2, hb⟩ := h2 hc
            refine ⟨rg2, hrg2, ?_⟩
            rw [hoff]
            omega
          · intro hc
            obtain ⟨rg2, hrg2, hb⟩ := h3 hc
            exact ⟨rg2, hrg2, by rw [ho3]; exact hb⟩
        · simp only [List.mem_singleton] at hq
          subst hq
          refine ⟨?_, ?_, ?_⟩
          · intro hc
            rw [hcls] at hc
            cases hc
          · intro _
            refine ⟨rg, hreg, ?_⟩
            simp only [hva, hoff, hsize]
            omega
          · intro hc
            rw [hcls] at hc
            cases hc
      · rw [hl]
        apply List.pairwise_append.mpr
        refine ⟨hinv.2, List.pairwise_singleton _ _, ?_⟩
        intro a ha b hb hcls2
        simp only [List.mem_singleton] at hb
        subst hb
        obtain ⟨_, h2, _⟩ := hinv.1 a ha
        rw [hcls] at hcls2
        obtain ⟨rg2, hrg2, hb2⟩ := h2 hcls2
        rw [hreg] at hrg2
        cases hrg2
        left
        rw [hva]
        exact hb2
    · constructor
      · intro q hq
        rw [hl] at hq
        rcases List.mem_append.mp hq with hq | hq
        · obtain ⟨h1, h2, h3⟩ := hinv.1 q hq
          refine ⟨?_, ?_, ?_⟩
          · intro hc
            obtain ⟨rg2, hrg2, hb⟩ := h1 hc
            exact ⟨rg2, hrg2, by rw [ho2]; exact hb⟩
          · intro hc
            obtain ⟨rg2, hrg2, hb⟩ := h2 hc
            exact ⟨rg2, hrg2, by rw [ho3]; exact hb⟩
          · intro hc
            obtain ⟨rg2, hrg2, hb⟩ := h3 hc
            refine ⟨rg2, hrg2, ?_⟩
            rw [hoff]
            omega
        · simp only [List.mem_singleton] at hq
          subst hq
          refine ⟨?_, ?_, ?_⟩
          · intro hc
            rw [hcls] at hc
            cases hc
          · intro hc
            rw [hcls] at hc
            cases hc
          · intro _
            refine ⟨rg, hreg, ?_⟩
            simp only [hva, hoff, hsize]
            omega
      · rw [hl]
        apply List.pairwise_append.mpr
        refine ⟨hinv.2, List.pairwise_singleton _ _, ?_⟩
        intro a ha b hb hcls2
        simp only [List.mem_singleton] at hb
        subst hb
        obtain ⟨_, _, h3⟩ := hinv.1 a ha
        rw [hcls] at hcls2
        obtain ⟨rg2, hrg2, hb2⟩ := h3 hcls2
        rw [hreg] at hrg2
        cases hrg2
        left
        rw [hva]
        exact hb2

theorem placeLoop_inv (dem : Str → DemangledSymbol) (table : List ElfSection)
    (globals : List Nat) (tp rp dp : Except Err Region)
    (halign : ∀ s ∈ table, 0 < s.align) :
    ∀ (ps : List (Nat × ElfSection)), (∀ q ∈ ps, q.2 ∈ table) →
    ∀ (st pst : PState),
    placeLoop dem table globals tp rp dp ps st = .ok pst →
    placementInv tp rp dp st → placementInv tp rp dp pst := by
  intro ps
  induction ps with
  | nil =>
    intro _ st pst h hi
    cases h
    exact hi
  | cons q rest ih =>
    intro hqs st pst h hi
    show placementInv tp rp dp pst
    rcases hq : placeStep dem table globals tp rp dp st q with e | st1
    · rw [show placeLoop dem table globals tp rp dp (q :: rest) st =
        (match placeStep dem table globals tp rp dp st q with
          | Except.error e => Except.error e
          | Except.ok st' =>
            placeLoop dem table globals tp rp dp rest st') from rfl, hq] at h
      cases h
    · rw [show placeLoop dem table globals tp rp dp (q :: rest) st =
        (match placeStep dem table globals tp rp dp st q with
          | Except.error e => Except.error e
          | Except.ok st' =>
            placeLoop dem table globals tp rp dp rest st') from rfl, hq] at h
      simp only at h
      exact ih (fun q2 hq2 => hqs q2 (List.mem_cons_of_mem q hq2)) st1 pst h
        (placeStep_inv dem table globals tp rp dp st q st1 halign
          (hqs q (List.mem_cons_self q rest)) hq hi)

/-! ### Claim C4: placement non-overlap -/

/-- Claim C4: in a successfully loaded crate, any two loaded sections of
the same permission class occupy disjoint address ranges, zero-size
substituted sections included; the alignments of the object's sections
are powers of two, as the spec requires of round_up. -/
theorem c4_placement_non_overlap (dem : Str → DemangledSymbol)
    (elf : ElfFile) (module_name : Str) (tb rb db : Nat) (mem0 : Mem)
    (reg : Registry) (cr : LoadedCrate) (reg2 : Registry)
    (halign : ∀ s ∈ elf.sections, ∃ k, s.align = 2 ^ k)
    (hok : parseElfKernelCrate dem elf module_name tb rb db mem0 reg =
      (.ok cr, reg2)) :
    List.Pairwise (fun a b : LoadedSection =>
      a.cls = b.cls → rangesDisjoint a b) cr.sections := by
  obtain ⟨symtab, pst, m', _, _, _, hplace, _, hcr⟩ :=
    parse_ok_inv dem elf module_name tb rb db mem0 reg cr reg2 hok
  have halign2 : ∀ s ∈ elf.sections, 0 < s.align := by
    intro s hs
    obtain ⟨k, hk⟩ := halign s hs
    rw [hk]
    exact pow_pos (by omega) k
  have hinv := placeLoop_inv dem elf.sections (globalSections symtab)
    (allocRegion (planBytes elf.sections).1 tb "no text sections present")
    (allocRegion (planBytes elf.sections).2.1 rb "no rodata sections present")
    (allocRegion (planBytes elf.sections).2.2 db "no data sections present")
    halign2 (enumFrom 0 elf.sections)
    (fun q hq => enumFrom_snd_mem elf.sections 0 q hq)
    { loaded := [], textOff := 0, rodataOff := 0, dataOff := 0, mem := mem0 }
    pst hplace ⟨(by intro q hq; cases hq), List.Pairwise.nil⟩
  rw [hcr]
  exact List.pairwise_map.mpr hinv.2

/-- Witness for C4 on the concrete single-text-section module. -/
theorem c4_placement_non_overlap_witness :
    List.Pairwise (fun a b : LoadedSection =>
      a.cls = b.cls → rangesDisjoint a b)
      ({ crate_name := "foo".toList,
         sections := [ { cls := .Text, abs_symbol := "foo".toList,
                         hash := none, virt_addr := 4096, size := 16,
                         global := true } ],
         mapped_pages := [ { base := 4096, size := 16 } ] } :
        LoadedCrate).sections :=
  c4_placement_non_overlap demId s1elf ("__k_foo".toList) 4096 8192 12288
    memZero [] _ []
    (by
      intro s hs
      simp only [s1elf, List.mem_cons, List.not_mem_nil, or_false] at hs
      rcases hs with rfl | rfl
      · exact ⟨4, rfl⟩
      · exact ⟨3, rfl⟩)
    (by rfl)

/-! ### Class regions of loaded sections -/

theorem placeLoop_class (dem : Str → DemangledSymbol)
    (table : List ElfSection) (globals : List Nat)
    (tp rp dp : Except Err Region) :
    ∀ (ps : List (Nat × ElfSection)) (st pst : PState),
    placeLoop dem table globals tp rp dp ps st = .ok pst →
    (∀ q ∈ st.loaded,
      (q.2.cls = SecClass.Text → ∃ rg, tp = .ok rg) ∧
      (q.2.cls = SecClass.Rodata → ∃ rg, rp = .ok rg) ∧
      (q.2.cls = SecClass.Data → ∃ rg, dp = .ok rg)) →
    ∀ q ∈ pst.loaded,
      (q.2.cls = SecClass.Text → ∃ rg, tp = .ok rg) ∧
      (q.2.cls = SecClass.Rodata → ∃ rg, rp = .ok rg) ∧
      (q.2.cls = SecClass.Data → ∃ rg, dp = .ok rg) := by
  intro ps
  induction ps with
  | nil =>
    intro st pst h hcl
    cases h
    exact hcl
  | cons q rest ih =>
    intro st pst h hcl
    rcases hq : placeStep dem table globals tp rp dp st q with e | st1
    · rw [show placeLoop dem table globals tp rp dp (q :: rest) st =
        (match placeStep dem table globals tp rp dp st q with
          | Except.error e => Except.error e
          | Except.ok st' =>
            placeLoop dem table globals tp rp dp rest st') from rfl, hq] at h
      cases h
    · rw [show placeLoop dem table globals tp rp dp (q :: rest) st =
        (match placeStep dem table globals tp rp dp st q with
          | Except.error e => Except.error e
          | Except.ok st' =>
            placeLoop dem table globals tp rp dp rest st') from rfl, hq] at h
      simp only at h
      refine ih st1 pst h ?_
      rcases placeStep_shape dem table globals tp rp dp st q st1 hq with
        ⟨hl, _, _, _⟩ | ⟨v, rg, sNew, _, _, hl, hcase⟩
      · rw [hl]
        exact hcl
      · rw [hl]
        intro q2 hq2
        rcases List.mem_append.mp hq2 with hq2 | hq2
        · exact hcl q2 hq2
        · simp only [List.mem_singleton] at hq2
          subst hq2
          rcases hcase with ⟨hcls, hreg, _⟩ | ⟨hcls, hreg, _⟩ | ⟨hcls, hreg, _⟩
          · exact ⟨fun _ => ⟨rg, hreg⟩,
              fun hc => absurd hc (by rw [hcls]; simp),
              fun hc => absurd hc (by rw [hcls]; simp)⟩
          · exact ⟨fun hc => absurd hc (by rw [hcls]; simp),
              fun _ => ⟨rg, hreg⟩,
              fun hc => absurd hc (by rw [hcls]; simp)⟩
          · exact ⟨fun hc => absurd hc (by rw [hcls]; simp),
              fun hc => absurd hc (by rw [hcls]; simp),
              fun _ => ⟨rg, hreg⟩⟩

/-! ### Claim C8: absent regions for empty classes -/

/-- Counterexample to C8: an otherwise-valid object whose only text-named
section has size zero plans zero text bytes, and the load fails instead of
succeeding, because the zero-size text section still reaches placement and
finds no text region. -/
theorem c8_counterexample :
    parseElfKernelCrate demId c8badElf ("__k_bad".toList) 4096 8192 12288
      memZero [] = (.error "no text_pages were allocated", []) := rfl

/-- Amended claim C8: when a class's planned byte total is zero, the
sentinel not-allocated result is used and a crate returned successfully
contains no section of that class - the loader tolerates the absent
region only as long as no section of that class (by name prefix) reaches
placement; a zero-size section of the class makes the load fail, as the
counterexample shows. -/
theorem c8_zero_total_sentinel (dem : Str → DemangledSymbol) (elf : ElfFile)
    (module_name : Str) (tb rb db : Nat) (mem0 : Mem) (reg : Registry)
    (cr : LoadedCrate) (reg2 : Registry)
    (hok : parseElfKernelCrate dem elf module_name tb rb db mem0 reg =
      (.ok cr, reg2)) :
    ((planBytes elf.sections).1 = 0 →
      allocRegion (planBytes elf.sections).1 tb "no text sections present" =
        .error "no text sections present" ∧
      ∀ s ∈ cr.sections, s.cls ≠ SecClass.Text) ∧
    ((planBytes elf.sections).2.1 = 0 →
      allocRegion (planBytes elf.sections).2.1 rb "no rodata sections present" =
        .error "no rodata sections present" ∧
      ∀ s ∈ cr.sections, s.cls ≠ SecClass.Rodata) ∧
    ((planBytes elf.sections).2.2 = 0 →
      allocRegion (planBytes elf.sections).2.2 db "no data sections present" =
        .error "no data sections present" ∧
      ∀ s ∈ cr.sections, s.cls ≠ SecClass.Data) := by
  obtain ⟨symtab, pst, m', _, _, _, hplace, _, hcr⟩ :=
    parse_ok_inv dem elf module_name tb rb db mem0 reg cr reg2 hok
  have hclass := placeLoop_class dem elf.sections (globalSections symtab)
    (allocRegion (planBytes elf.sections).1 tb "no text sections present")
    (allocRegion (planBytes elf.sections).2.1 rb "no rodata sections present")
    (allocRegion (planBytes elf.sections).2.2 db "no data sections present")
    (enumFrom 0 elf.sections)
    { loaded := [], textOff := 0, rodataOff := 0, dataOff := 0, mem := mem0 }
    pst hplace (by intro q hq; cases hq)
  refine ⟨?_, ?_, ?_⟩
  · intro h0
    have hsent : allocRegion (planBytes elf.sections).1 tb
        "no text sections present" = .error "no text sections present" := by
      rw [h0]
      rfl
    refine ⟨hsent, ?_⟩
    intro s hs hcls
    rw [hcr] at hs
    obtain ⟨q, hq, rfl⟩ := List.mem_map.mp hs
    obtain ⟨h1, _, _⟩ := hclass q hq
    obtain ⟨rg, hrg⟩ := h1 hcls
    rw [hsent] at hrg
    cases hrg
  · intro h0
    have hsent : allocRegion (planBytes elf.sections).2.1 rb
        "no rodata sections present" = .error "no rodata sections present" := by
      rw [h0]
      rfl
    refine ⟨hsent, ?_⟩
    intro s hs hcls
    rw [hcr] at hs
    obtain ⟨q, hq, rfl⟩ := List.mem_map.mp hs
    obtain ⟨_, h2, _⟩ := hclass q hq
    obtain ⟨rg, hrg⟩ := h2 hcls
    rw [hsent] at hrg
    cases hrg
  · intro h0
    have hsent : allocRegion (planBytes elf.sections).2.2 db
        "no data sections present" = .error "no data sections present" := by
      rw [h0]
      rfl
    refine ⟨hsent, ?_⟩
    intro s hs hcls
    rw [hcr] at hs
    obtain ⟨q, hq, rfl⟩ := List.mem_map.mp hs
    obtain ⟨_, _, h3⟩ := hclass q hq
    obtain ⟨rg, hrg⟩ := h3 hcls
    rw [hsent] at hrg
    cases hrg

/-- Witness for the amended C8: the rodata-only module loads with its text
class absent (sentinel region, no text sections in the crate). -/
theorem c8_zero_total_sentinel_witness :
    allocRegion (planBytes c8goodElf.sections).1 4096
      "no text sections present" = .error "no text sections present" ∧
    ∀ s ∈ ({ crate_name := "ro".toList,
             sections := [ { cls := .Rodata, abs_symbol := "r".toList,
                             hash := none, virt_addr := 8192, size := 8,
                             global := false } ],
             mapped_pages := [ { base := 8192, size := 8 } ] } :
        LoadedCrate).sections, s.cls ≠ SecClass.Text :=
  (c8_zero_total_sentinel demId c8goodElf ("__k_ro".toList) 4096 8192 12288
    memZero [] _ [] (by rfl)).1 rfl

/-! ### Claim C9: zero-size section at the end of the table -/

theorem enumFrom_last_mem {α : Type} :
    ∀ (l : List α) (x : α) (i : Nat),
    (i + l.length, x) ∈ enumFrom i (l ++ [x]) := by
  intro l
  induction l with
  | nil =>
    intro x i
    simp [enumFrom]
  | cons a t ih =>
    intro x i
    have harith : i + (a :: t).length = i + 1 + t.length := by
      simp
      omega
    rw [harith]
    exact List.mem_cons_of_mem (i, a) (ih x (i + 1))

theorem placeStep_zero_last (dem : Str → DemangledSymbol)
    (table : List ElfSection) (globals : List Nat)
    (tp rp dp : Except Err Region) (i : Nat) (sec : ElfSection)
    (hty : sec.shType = .ProgBits ∨ sec.shType = .NoBits)
    (hsz : sec.size = 0) (hnone : table.get? (i + 1) = none) :
    ∀ st, ∃ e, placeStep dem table globals tp rp dp st (i, sec) = .error e := by
  intro st
  have hv : sectionView table i sec =
      .error "could not get next section for a zero-sized section" := by
    unfold sectionView
    rw [if_pos hsz, hnone]
  unfold placeStep
  simp only
  rw [if_pos hty, hv]
  exact ⟨_, rfl⟩

/-- Claim C9: when a zero-size PROGBITS/NOBITS section is the last entry
of the section-header table, the load returns an error rather than
substituting a next header or reading past the table. -/
theorem c9_zero_size_last_section (dem : Str → DemangledSymbol)
    (elf : ElfFile) (module_name : Str) (tb rb db : Nat) (mem0 : Mem)
    (reg : Registry) (front : List ElfSection) (lastSec : ElfSection)
    (hsecs : elf.sections = front ++ [lastSec])
    (hty : lastSec.shType = .ProgBits ∨ lastSec.shType = .NoBits)
    (hsz : lastSec.size = 0) :
    ∀ cr reg2, parseElfKernelCrate dem elf module_name tb rb db mem0 reg ≠
      (.ok cr, reg2) := by
  intro cr reg2 hok
  obtain ⟨symtab, pst, m', _, _, _, hplace, _, _⟩ :=
    parse_ok_inv dem elf module_name tb rb db mem0 reg cr reg2 hok
  have hnone : elf.sections.get? (front.length + 1) = none := by
    rw [hsecs]
    apply List.get?_eq_none.mpr
    simp
  have hstep := placeStep_zero_last dem elf.sections (globalSections symtab)
    (allocRegion (planBytes elf.sections).1 tb "no text sections present")
    (allocRegion (planBytes elf.sections).2.1 rb "no rodata sections present")
    (allocRegion (planBytes elf.sections).2.2 db "no data sections present")
    front.length lastSec hty hsz hnone
  have hmem : (front.length, lastSec) ∈ enumFrom 0 elf.sections := by
    rw [hsecs]
    have h := enumFrom_last_mem front lastSec 0
    simpa using h
  obtain ⟨e, he⟩ := placeLoop_error dem elf.sections (globalSections symtab)
    (allocRegion (planBytes elf.sections).1 tb "no text sections present")
    (allocRegion (planBytes elf.sections).2.1 rb "no rodata sections present")
    (allocRegion (planBytes elf.sections).2.2 db "no data sections present")
    (front.length, lastSec) hstep (enumFrom 0 elf.sections) hmem
    { loaded := [], textOff := 0, rodataOff := 0, dataOff := 0, mem := mem0 }
  rw [hplace] at he
  cases he

/-- Witness for C9 on the concrete module whose last section header is a
zero-size PROGBITS text section. -/
theorem c9_zero_size_last_section_witness :
    parseElfKernelCrate demId c9elf ("__k_z".toList) 4096 8192 12288
      memZero [] ≠
      (.ok { crate_name := [], sections := [], mapped_pages := [] }, []) :=
  c9_zero_size_last_section demId c9elf ("__k_z".toList) 4096 8192 12288
    memZero []
    [ { name := ".symtab".toList, shType := .SymTab, flags := 0, size := 0,
        align := 8, data := .SymbolTable64 [], info := 0 } ]
    { name := ".text.zz".toList, shType := .ProgBits, flags := 6,
      size := 0, align := 16, data := .Undefined [], info := 0 }
    rfl (Or.inl rfl) rfl
    { crate_name := [], sections := [], mapped_pages := [] } []
